import Mathlib

/-!
Verification of the DeepRec `DirectSession` execution engine
(`tensorflow/core/common_runtime/direct_session.cc`) against its
natural-language specification.  The C++ session code is shallowly embedded:
pure decision logic becomes Lean functions, stateful member functions become
explicit state-passing functions, and external collaborators (graph builder,
rendezvous transport, executors) enter as status/oracle parameters.
-/

namespace DeepRec

/-- Semantic error taxonomy of `tensorflow::Status` codes used by the session
(spec section 7). -/
inductive ErrCode where
  | ok
  | cancelled
  | invalidArgument
  | notFound
  | alreadyExists
  | failedPrecondition
  | internal
  | deadlineExceeded
  deriving DecidableEq, Repr

/-- A `tensorflow::Status`: an error code plus a message. -/
structure Status where
  code : ErrCode
  msg : String
  deriving DecidableEq, Repr

/-- `Status::OK()`. -/
def Status.OK : Status := ⟨ErrCode.ok, ""⟩

/-- `Status::ok()`. -/
def Status.isOk (s : Status) : Bool := s.code == ErrCode.ok

/-- `errors::AlreadyExists(...)`. -/
def Status.alreadyExistsErr (m : String) : Status := ⟨ErrCode.alreadyExists, m⟩

/-- `errors::InvalidArgument(...)`. -/
def Status.invalidArgumentErr (m : String) : Status := ⟨ErrCode.invalidArgument, m⟩

/-- `errors::NotFound(...)`. -/
def Status.notFoundErr (m : String) : Status := ⟨ErrCode.notFound, m⟩

/-- `errors::Cancelled(...)`. -/
def Status.cancelledErr (m : String) : Status := ⟨ErrCode.cancelled, m⟩

/-- `errors::Internal(...)`. -/
def Status.internalErr (m : String) : Status := ⟨ErrCode.internal, m⟩

/-- `Status(error::DEADLINE_EXCEEDED, ...)`. -/
def Status.deadlineExceededErr (m : String) : Status := ⟨ErrCode.deadlineExceeded, m⟩

/-- `Status::Update(s)`: overwrite only if currently OK. -/
def Status.update (s t : Status) : Status := if s.isOk then t else s

/-- The sequencing of `TF_RETURN_IF_ERROR(a); return b;`: propagate the first
non-OK status, otherwise continue with the second. -/
def Status.andThen (s t : Status) : Status := if s.isOk then t else s

/-! ## Graph intake: `DirectSession::Create` / `ExtendLocked` (claim C4)

`Create(GraphDef&&)` checks `init_error_`, and for a graph with at least one
node takes `graph_state_lock_`, fails with already-exists if `graph_created_`
is already latched, and otherwise delegates to `ExtendLocked`, whose
first-call branch builds the base execution state and latches
`graph_created_ = true` only after the build succeeded.  An empty graph is a
no-op returning OK. -/

/-- The graph-intake portion of the session state: the `graph_created_` latch
(guarded by `graph_state_lock_`). -/
structure GraphStateM where
  graphCreated : Bool
  deriving DecidableEq, Repr

/-- `DirectSession::ExtendLocked` restricted to its state effect.  The
first-call branch (`!(flib_def_ && execution_state_)`, i.e. the latch not yet
set) runs `GraphExecutionState::MakeForBaseGraph` — an external collaborator
whose resulting status is the parameter `buildStatus` — and sets
`graph_created_ = true` on success.  The extension branch forwards the status
of `AddLibrary`/`Extend` (same parameter) without touching the latch. -/
def extendLocked (st : GraphStateM) (buildStatus : Status) : Status × GraphStateM :=
  if st.graphCreated = false then
    if buildStatus.isOk then (Status.OK, { graphCreated := true })
    else (buildStatus, st)
  else
    (buildStatus, st)

/-- `DirectSession::Create(GraphDef&&)` (direct_session.cc:683-694).
`initError` is the session's `init_error_`, `nodeSize` the graph's
`node_size()`, `buildStatus` the collaborator status consumed by
`ExtendLocked`. -/
def create (initError : Status) (st : GraphStateM) (nodeSize : Nat)
    (buildStatus : Status) : Status × GraphStateM :=
  if initError.isOk = false then (initError, st)
  else if nodeSize > 0 then
    if st.graphCreated then
      (Status.alreadyExistsErr "A Graph has already been created for this session.", st)
    else extendLocked st buildStatus
  else (Status.OK, st)

/-! ## Close, the closed latch, and the public-operation gates (claim C5) -/

/-- The lifecycle flags of a `DirectSession` relevant to `Close`:
the `closed_` latch (under `closed_lock_`), whether
`cancellation_manager_->StartCancel()` has run, and whether the session has
deregistered from its factory. -/
structure SessionFlags where
  closed : Bool
  cancelStarted : Bool
  deregistered : Bool
  graphCreated : Bool
  deriving DecidableEq, Repr

/-- `DirectSession::Close` (direct_session.cc:2024-2033): unconditionally
start cancellation, then under `closed_lock_` return OK early if already
closed, else latch `closed_` and deregister from the factory. -/
def close (s : SessionFlags) : Status × SessionFlags :=
  let s1 := { s with cancelStarted := true }
  if s1.closed then (Status.OK, s1)
  else (Status.OK, { s1 with closed := true, deregistered := true })

/-- Modelled from the spec: `DirectSession::CheckNotClosed` is declared in
`direct_session.h`, which is not among the provided sources.  Per the spec
("After `Close`, every public operation returns *cancelled* or
*failed-precondition*") and its description of the `closed_` latch, it
returns a *cancelled* status when the latch is set and OK otherwise. -/
def checkNotClosed (s : SessionFlags) : Status :=
  if s.closed then Status.cancelledErr "Session has been closed." else Status.OK

/-- Modelled from the spec: `DirectSession::CheckGraphCreated` is declared in
`direct_session.h`, which is not among the provided sources.  Per the spec's
error taxonomy ("*failed-precondition* (`Run` after `Close`, before
`Create`)"), it returns a *failed-precondition* status when no graph has been
created yet. -/
def checkGraphCreated (s : SessionFlags) (method : String) : Status :=
  if s.graphCreated then Status.OK
  else ⟨ErrCode.failedPrecondition,
        "Session was not created with a graph before " ++ method ++ "!"⟩

/-- The status-gate prefix of `DirectSession::Extend` (line 701):
`TF_RETURN_IF_ERROR(CheckNotClosed())`. -/
def extendGate (s : SessionFlags) : Status := checkNotClosed s

/-- The status-gate prefix of `DirectSession::Run` (lines 1095-1096). -/
def runGate (s : SessionFlags) : Status :=
  (checkNotClosed s).andThen (checkGraphCreated s "Run()")

/-- The status-gate prefix of `DirectSession::PRunSetup` (lines 1212-1213). -/
def prunSetupGate (s : SessionFlags) : Status :=
  (checkNotClosed s).andThen (checkGraphCreated s "PRunSetup()")

/-- The status-gate prefix of `DirectSession::PRun` (line 1301). -/
def prunGate (s : SessionFlags) : Status := checkNotClosed s

/-- The status-gate prefix of `DirectSession::MakeCallable` (lines 2117-2118). -/
def makeCallableGate (s : SessionFlags) : Status :=
  (checkNotClosed s).andThen (checkGraphCreated s "MakeCallable()")

/-- The status-gate prefix of `DirectSession::RunCallable` (lines 2189-2190). -/
def runCallableGate (s : SessionFlags) : Status :=
  (checkNotClosed s).andThen (checkGraphCreated s "RunCallable()")

/-- `DirectSession::ListDevices` (direct_session.cc:2007-2016): fills the
response from the device list and unconditionally returns OK; it never
consults the `closed_` latch. -/
def listDevicesStatus (_s : SessionFlags) : Status := Status.OK

/-- `DirectSession::Reset` (direct_session.cc:2018-2022): clears the named
containers and unconditionally returns OK; it never consults the `closed_`
latch. -/
def resetStatus (_s : SessionFlags) : Status := Status.OK

/-! ## Theorems for claims C4 and C5 -/

/-- C4: `Create(graph)` is accepted exactly once per session when `graph` has
at least one node; every subsequent `Create` call on that session (with a
nonempty graph) fails with already-exists.  The first call, on a session with
no error at initialization and whose base-graph build succeeds, returns OK
and latches `graph_created_`; any later call then returns already-exists and
leaves the state unchanged. -/
theorem create_accepted_exactly_once
    (initError : Status) (st : GraphStateM) (n m : Nat) (bs bs2 : Status)
    (hInit : initError.isOk = true) (hNode : 0 < n) (hBuild : bs.isOk = true)
    (hNew : st.graphCreated = false) (hNode2 : 0 < m) :
    (create initError st n bs).1 = Status.OK ∧
    (create initError st n bs).2.graphCreated = true ∧
    (create initError (create initError st n bs).2 m bs2).1.code =
      ErrCode.alreadyExists ∧
    (create initError (create initError st n bs).2 m bs2).2 =
      (create initError st n bs).2 := by
  have h1 : create initError st n bs = (Status.OK, { graphCreated := true }) := by
    simp [create, hInit, hNode, hNew, extendLocked, hBuild]
  refine ⟨by rw [h1], by rw [h1], ?_, ?_⟩ <;>
    rw [h1] <;> simp [create, hInit, hNode2, Status.alreadyExistsErr]

/-- Witness for `create_accepted_exactly_once` at a concrete input: a fresh
session, two one-node graphs, successful build. -/
theorem create_accepted_exactly_once_witness :
    (create Status.OK ⟨false⟩ 1 Status.OK).1 = Status.OK ∧
    (create Status.OK ⟨false⟩ 1 Status.OK).2.graphCreated = true ∧
    (create Status.OK (create Status.OK ⟨false⟩ 1 Status.OK).2 1 Status.OK).1.code =
      ErrCode.alreadyExists ∧
    (create Status.OK (create Status.OK ⟨false⟩ 1 Status.OK).2 1 Status.OK).2 =
      (create Status.OK ⟨false⟩ 1 Status.OK).2 :=
  create_accepted_exactly_once Status.OK ⟨false⟩ 1 1 Status.OK Status.OK
    (by decide) (by decide) (by decide) (by decide) (by decide)

/-- C5, counterexample to the claim as stated: after `Close`, the public
operation `ListDevices` returns OK — neither *cancelled* nor
*failed-precondition*.  (`ListDevices` and `Reset` never consult the
`closed_` latch, direct_session.cc:2007-2022.) -/
theorem close_then_listDevices_ok :
    (close ⟨false, false, false, true⟩).2.closed = true ∧
    listDevicesStatus (close ⟨false, false, false, true⟩).2 = Status.OK ∧
    (listDevicesStatus (close ⟨false, false, false, true⟩).2).code ≠
      ErrCode.cancelled ∧
    (listDevicesStatus (close ⟨false, false, false, true⟩).2).code ≠
      ErrCode.failedPrecondition := by
  decide

/-- C5 as amended: `Close` is idempotent (a second `Close` returns OK and
changes nothing further), and after `Close` the operations that consult the
`closed_` latch — `Extend`, `Run`, `PRunSetup`, `PRun`, `MakeCallable`,
`RunCallable` — return *cancelled*; `ListDevices` and `Reset` do not consult
the latch and return OK. -/
theorem close_idempotent_and_latch_gated_ops_cancelled (s0 : SessionFlags) :
    (close s0).1 = Status.OK ∧
    (close (close s0).2).1 = Status.OK ∧
    (close (close s0).2).2 = (close s0).2 ∧
    (extendGate (close s0).2).code = ErrCode.cancelled ∧
    (runGate (close s0).2).code = ErrCode.cancelled ∧
    (prunSetupGate (close s0).2).code = ErrCode.cancelled ∧
    (prunGate (close s0).2).code = ErrCode.cancelled ∧
    (makeCallableGate (close s0).2).code = ErrCode.cancelled ∧
    (runCallableGate (close s0).2).code = ErrCode.cancelled ∧
    listDevicesStatus (close s0).2 = Status.OK ∧
    resetStatus (close s0).2 = Status.OK := by
  have hclosed : (close s0).2.closed = true := by
    simp only [close]
    by_cases h : s0.closed <;> simp [h]
  have hc : checkNotClosed (close s0).2 =
      Status.cancelledErr "Session has been closed." := by
    simp [checkNotClosed, hclosed]
  have hsecond : close (close s0).2 = (Status.OK, (close s0).2) := by
    simp only [close]
    by_cases h : s0.closed <;> simp [h]
  refine ⟨?_, ?_, ?_, ?_, ?_, ?_, ?_, ?_, ?_, rfl, rfl⟩
  · simp only [close]; by_cases h : s0.closed <;> simp [h]
  · rw [hsecond]
  · rw [hsecond]
  all_goals
    simp [extendGate, runGate, prunSetupGate, prunGate, makeCallableGate,
      runCallableGate, hc, Status.andThen, Status.cancelledErr, Status.isOk,
      Status.OK]

/-! ## Executor cache and key canonicalization (claim C1)

`DirectSession::GetOrCreateExecutors` (direct_session.cc:1739-1850) looks up
the cache `executors_` under the exact-order key; on a miss it sorts the
feed, fetch and target lists (`std::sort`, i.e. lexicographic `<` on
`std::string`), rebuilds the canonical key, looks up again, aliasing the
original key on a hit; on a full miss it builds the executors from the
sorted lists, inserts under the canonical key (keeping a racing winner if
one exists) and always aliases the original key. -/

/-- Lexicographic comparison of character lists: the order underlying
`std::string::operator<` used by `std::sort` in `GetOrCreateExecutors`. -/
def lexLeB : List Char → List Char → Bool
  | [], _ => true
  | _ :: _, [] => false
  | a :: as, b :: bs =>
    if a < b then true
    else if b < a then false
    else lexLeB as bs

theorem lexLeB_total : ∀ l1 l2, lexLeB l1 l2 = true ∨ lexLeB l2 l1 = true := by
  intro l1
  induction l1 with
  | nil => intro l2; left; rfl
  | cons a as ih =>
    intro l2
    cases l2 with
    | nil => right; rfl
    | cons b bs =>
      rcases lt_trichotomy a b with h | h | h
      · left; simp [lexLeB, h]
      · subst h
        rcases ih bs with h2 | h2
        · left; simp [lexLeB, h2]
        · right; simp [lexLeB, h2]
      · right; simp [lexLeB, h]

theorem lexLeB_antisymm :
    ∀ l1 l2, lexLeB l1 l2 = true → lexLeB l2 l1 = true → l1 = l2 := by
  intro l1
  induction l1 with
  | nil =>
    intro l2 _ h2
    cases l2 with
    | nil => rfl
    | cons b bs => simp [lexLeB] at h2
  | cons a as ih =>
    intro l2 h1 h2
    cases l2 with
    | nil => simp [lexLeB] at h1
    | cons b bs =>
      rcases lt_trichotomy a b with h | h | h
      · simp [lexLeB, h, asymm h] at h2
      · subst h
        simp [lexLeB, lt_irrefl] at h1 h2
        rw [ih bs h1 h2]
      · simp [lexLeB, h, asymm h] at h1

theorem lexLeB_trans : ∀ l1 l2 l3, lexLeB l1 l2 = true → lexLeB l2 l3 = true →
    lexLeB l1 l3 = true := by
  intro l1
  induction l1 with
  | nil => intro l2 l3 _ _; rfl
  | cons a as ih =>
    intro l2 l3 h1 h2
    cases l2 with
    | nil => simp [lexLeB] at h1
    | cons b bs =>
      cases l3 with
      | nil => simp [lexLeB] at h2
      | cons c cs =>
        rcases lt_trichotomy a b with hab | hab | hab
        · rcases lt_trichotomy b c with hbc | hbc | hbc
          · simp [lexLeB, lt_trans hab hbc]
          · subst hbc; simp [lexLeB, hab]
          · exfalso; simp [lexLeB, hbc, asymm hbc] at h2
        · subst hab
          rcases lt_trichotomy a c with hac | hac | hac
          · simp [lexLeB, hac]
          · subst hac
            simp [lexLeB, lt_irrefl] at h1 h2 ⊢
            exact ih _ _ h1 h2
          · exfalso; simp [lexLeB, hac, asymm hac] at h2
        · exfalso; simp [lexLeB, hab, asymm hab] at h1

/-- `operator<=` induced by `std::string::operator<`, as a relation. -/
def strLeProp (a b : String) : Prop := lexLeB a.toList b.toList = true

instance : DecidableRel strLeProp := fun a b =>
  instDecidableEqBool (lexLeB a.toList b.toList) true

instance : IsTotal String strLeProp := ⟨fun _ _ => lexLeB_total _ _⟩

instance : IsTrans String strLeProp :=
  ⟨fun _ _ _ h1 h2 => lexLeB_trans _ _ _ h1 h2⟩

instance : IsAntisymm String strLeProp :=
  ⟨fun _ _ h1 h2 => String.ext (lexLeB_antisymm _ _ h1 h2)⟩

/-- `std::sort(v.begin(), v.end())` on a vector of strings: a stable model as
insertion sort, producing the sorted permutation. -/
def sortStrings (l : List String) : List String := List.insertionSort strLeProp l

/-- Two lists that are permutations of each other have the same sorted form. -/
theorem sortStrings_perm_eq {l1 l2 : List String} (h : l1.Perm l2) :
    sortStrings l1 = sortStrings l2 :=
  List.eq_of_perm_of_sorted
    ((List.perm_insertionSort _ l1).trans (h.trans (List.perm_insertionSort _ l2).symm))
    (List.sorted_insertionSort _ l1) (List.sorted_insertionSort _ l2)

/-- The cache key built by `GetOrCreateExecutors` (direct_session.cc:1755-1758
and 1788-1791): comma-joined feeds, `->`, comma-joined fetches, `/`,
comma-joined targets, `/`, the partial-run flag, `/`, the debug-watch
summary. -/
def cacheKey (inputs outputs targets : List String) (isPartialRun : Bool)
    (debugSummary : String) : String :=
  String.intercalate "," inputs ++ "->" ++ String.intercalate "," outputs ++ "/" ++
    String.intercalate "," targets ++ "/" ++ (if isPartialRun then "1" else "0") ++
    "/" ++ debugSummary

/-- The cache `executors_`: a map from key strings to shared
`ExecutorsAndKeys` objects.  Objects are identified by a numeric id (what
matters for the claim is object identity); `nextId` models allocation of a
freshly built `ExecutorsAndKeys`. -/
structure ExecCache where
  entries : List (String × Nat)
  nextId : Nat
  deriving DecidableEq, Repr

/-- `executors_.find(k)`. -/
def ExecCache.find? (c : ExecCache) (k : String) : Option Nat :=
  (c.entries.find? (fun e => e.1 == k)).map (fun e => e.2)

/-- `executors_.emplace(k, v)`: inserts only when the key is absent. -/
def ExecCache.emplace (c : ExecCache) (k : String) (v : Nat) : ExecCache :=
  match c.find? k with
  | some _ => c
  | none => { c with entries := c.entries ++ [(k, v)] }

theorem ExecCache.find?_emplace_self (c : ExecCache) (k : String) (v : Nat)
    (h : c.find? k = none) : (c.emplace k v).find? k = some v := by
  have h0 : c.entries.find? (fun e => e.1 == k) = none := by
    cases hf : c.entries.find? (fun e => e.1 == k) with
    | none => rfl
    | some e => simp [ExecCache.find?, hf] at h
  simp [ExecCache.emplace, h, ExecCache.find?, List.find?_append, h0, List.find?_cons]

theorem ExecCache.find?_emplace_of_ne (c : ExecCache) (k k' : String) (v : Nat)
    (h : k' ≠ k) : (c.emplace k v).find? k' = c.find? k' := by
  simp only [ExecCache.emplace]
  cases hf : c.find? k with
  | some w => rfl
  | none =>
    simp only [ExecCache.find?, List.find?_append, List.find?_cons]
    have hkk : (k == k') = false := by
      simp only [beq_eq_false_iff_ne, ne_eq]
      exact fun hkk => h hkk.symm
    simp [hkk]

/-- `DirectSession::GetOrCreateExecutors` (direct_session.cc:1739-1850),
restricted to its cache behavior.  Returns the (id of the) resulting
`ExecutorsAndKeys` object and the updated cache.  The fast path looks up the
exact-order key; the slow path sorts each list and looks up the canonical
key, aliasing the original key on a hit; on a full miss a fresh object is
built from the sorted lists and inserted under the canonical key (the
`emplace` keeps a racing winner), and the original key is aliased to
whichever entry is canonical. -/
def getOrCreateExecutors (c : ExecCache) (inputs outputs targets : List String)
    (isPartialRun : Bool) (debugSummary : String) : Nat × ExecCache :=
  let key := cacheKey inputs outputs targets isPartialRun debugSummary
  match c.find? key with
  | some ek => (ek, c)
  | none =>
    let sortedKey := cacheKey (sortStrings inputs) (sortStrings outputs)
      (sortStrings targets) isPartialRun debugSummary
    match c.find? sortedKey with
    | some ek => (ek, c.emplace key ek)
    | none =>
      let ek := c.nextId
      let c1 : ExecCache := { entries := c.entries, nextId := c.nextId + 1 }
      let c2 := c1.emplace sortedKey ek
      let canonical := (c2.find? sortedKey).getD ek
      let c3 := c2.emplace key canonical
      (canonical, c3)

theorem ExecCache.emplace_of_found (c : ExecCache) (k : String) (v w : Nat)
    (h : c.find? k = some w) : c.emplace k v = c := by
  simp only [ExecCache.emplace, h]

/-- On a full cache miss, `GetOrCreateExecutors` allocates the next object
id and inserts it under the canonical sorted key and then the original
key. -/
theorem getOrCreateExecutors_miss_eq (c : ExecCache)
    (inputs outputs targets : List String) (p : Bool) (d : String)
    (hk : c.find? (cacheKey inputs outputs targets p d) = none)
    (hs : c.find? (cacheKey (sortStrings inputs) (sortStrings outputs)
            (sortStrings targets) p d) = none) :
    getOrCreateExecutors c inputs outputs targets p d =
      (c.nextId,
        ((ExecCache.mk c.entries (c.nextId + 1)).emplace
            (cacheKey (sortStrings inputs) (sortStrings outputs)
              (sortStrings targets) p d) c.nextId).emplace
          (cacheKey inputs outputs targets p d) c.nextId) := by
  have e1 : (ExecCache.mk c.entries (c.nextId + 1)).find?
      (cacheKey (sortStrings inputs) (sortStrings outputs)
        (sortStrings targets) p d) = none := hs
  have e2 : ((ExecCache.mk c.entries (c.nextId + 1)).emplace
      (cacheKey (sortStrings inputs) (sortStrings outputs)
        (sortStrings targets) p d) c.nextId).find?
      (cacheKey (sortStrings inputs) (sortStrings outputs)
        (sortStrings targets) p d) = some c.nextId :=
    ExecCache.find?_emplace_self _ _ _ e1
  simp only [getOrCreateExecutors, hk, hs, e2, Option.getD_some]

/-- On a full cache miss (neither the exact-order key nor the canonical
sorted key present), `GetOrCreateExecutors` builds a fresh object, returns
it, and leaves the cache resolving both the canonical key and the original
key to that object, all other keys untouched. -/
theorem getOrCreateExecutors_miss_spec (c : ExecCache)
    (inputs outputs targets : List String) (p : Bool) (d : String)
    (hk : c.find? (cacheKey inputs outputs targets p d) = none)
    (hs : c.find? (cacheKey (sortStrings inputs) (sortStrings outputs)
            (sortStrings targets) p d) = none) :
    (getOrCreateExecutors c inputs outputs targets p d).1 = c.nextId ∧
    (getOrCreateExecutors c inputs outputs targets p d).2.find?
      (cacheKey inputs outputs targets p d) = some c.nextId ∧
    (getOrCreateExecutors c inputs outputs targets p d).2.find?
      (cacheKey (sortStrings inputs) (sortStrings outputs)
        (sortStrings targets) p d) = some c.nextId ∧
    ∀ k, k ≠ cacheKey inputs outputs targets p d →
      k ≠ cacheKey (sortStrings inputs) (sortStrings outputs)
            (sortStrings targets) p d →
      (getOrCreateExecutors c inputs outputs targets p d).2.find? k = c.find? k := by
  rw [getOrCreateExecutors_miss_eq c inputs outputs targets p d hk hs]
  have e1 : (ExecCache.mk c.entries (c.nextId + 1)).find?
      (cacheKey (sortStrings inputs) (sortStrings outputs)
        (sortStrings targets) p d) = none := hs
  have e2 : ((ExecCache.mk c.entries (c.nextId + 1)).emplace
      (cacheKey (sortStrings inputs) (sortStrings outputs)
        (sortStrings targets) p d) c.nextId).find?
      (cacheKey (sortStrings inputs) (sortStrings outputs)
        (sortStrings targets) p d) = some c.nextId :=
    ExecCache.find?_emplace_self _ _ _ e1
  by_cases heq : cacheKey inputs outputs targets p d =
      cacheKey (sortStrings inputs) (sortStrings outputs) (sortStrings targets) p d
  · rw [heq]
    rw [ExecCache.emplace_of_found _ _ c.nextId c.nextId e2]
    refine ⟨rfl, e2, e2, ?_⟩
    intro k _ hk2
    rw [ExecCache.find?_emplace_of_ne _ _ _ _ hk2]
    rfl
  · have e4 : (((ExecCache.mk c.entries (c.nextId + 1)).emplace
        (cacheKey (sortStrings inputs) (sortStrings outputs)
          (sortStrings targets) p d) c.nextId)).find?
        (cacheKey inputs outputs targets p d) = none := by
      rw [ExecCache.find?_emplace_of_ne _ _ _ _ heq]
      exact hk
    refine ⟨rfl, ExecCache.find?_emplace_self _ _ _ e4, ?_, ?_⟩
    · rw [ExecCache.find?_emplace_of_ne _ _ _ _ (fun h => heq h.symm)]
      exact e2
    · intro k hk1 hk2
      rw [ExecCache.find?_emplace_of_ne _ _ _ _ hk1,
        ExecCache.find?_emplace_of_ne _ _ _ _ hk2]
      rfl

/-- C1: for every feed, fetch and target list and every permutation of them,
a second `GetOrCreateExecutors` call on the permuted lists returns the
identical `ExecutorsAndKeys` object that the first call built, and the cache
afterwards resolves the permuted-order key, the sorted canonical key, and
the original-order key all to that one object: one prepared executor set per
logical request. -/
theorem getOrCreateExecutors_permutation_reuses_executors
    (c : ExecCache) (inputs outputs targets inputs2 outputs2 targets2 : List String)
    (p : Bool) (d : String)
    (hp1 : inputs2.Perm inputs) (hp2 : outputs2.Perm outputs)
    (hp3 : targets2.Perm targets)
    (hk : c.find? (cacheKey inputs outputs targets p d) = none)
    (hk2 : c.find? (cacheKey inputs2 outputs2 targets2 p d) = none)
    (hs : c.find? (cacheKey (sortStrings inputs) (sortStrings outputs)
            (sortStrings targets) p d) = none) :
    (getOrCreateExecutors (getOrCreateExecutors c inputs outputs targets p d).2
        inputs2 outputs2 targets2 p d).1 =
      (getOrCreateExecutors c inputs outputs targets p d).1 ∧
    (getOrCreateExecutors (getOrCreateExecutors c inputs outputs targets p d).2
        inputs2 outputs2 targets2 p d).2.find?
        (cacheKey inputs2 outputs2 targets2 p d) =
      some (getOrCreateExecutors c inputs outputs targets p d).1 ∧
    (getOrCreateExecutors (getOrCreateExecutors c inputs outputs targets p d).2
        inputs2 outputs2 targets2 p d).2.find?
        (cacheKey (sortStrings inputs) (sortStrings outputs)
          (sortStrings targets) p d) =
      some (getOrCreateExecutors c inputs outputs targets p d).1 ∧
    (getOrCreateExecutors (getOrCreateExecutors c inputs outputs targets p d).2
        inputs2 outputs2 targets2 p d).2.find?
        (cacheKey inputs outputs targets p d) =
      some (getOrCreateExecutors c inputs outputs targets p d).1 := by
  obtain ⟨eid, ekey, esort, eother⟩ :=
    getOrCreateExecutors_miss_spec c inputs outputs targets p d hk hs
  have hsort1 : sortStrings inputs2 = sortStrings inputs := sortStrings_perm_eq hp1
  have hsort2 : sortStrings outputs2 = sortStrings outputs := sortStrings_perm_eq hp2
  have hsort3 : sortStrings targets2 = sortStrings targets := sortStrings_perm_eq hp3
  set r1 := getOrCreateExecutors c inputs outputs targets p d with hr1
  rw [eid]
  by_cases hq1 : cacheKey inputs2 outputs2 targets2 p d =
      cacheKey inputs outputs targets p d
  · simp [getOrCreateExecutors, hq1, ekey, esort]
  · by_cases hq2 : cacheKey inputs2 outputs2 targets2 p d =
        cacheKey (sortStrings inputs) (sortStrings outputs)
          (sortStrings targets) p d
    · simp [getOrCreateExecutors, hq2, ekey, esort]
    · have efast : r1.2.find? (cacheKey inputs2 outputs2 targets2 p d) = none := by
        rw [eother _ hq1 hq2]; exact hk2
      simp only [getOrCreateExecutors, efast, hsort1, hsort2, hsort3, esort]
      refine ⟨by trivial, ?_, ?_, ?_⟩
      · exact ExecCache.find?_emplace_self _ _ _ efast
      · rw [ExecCache.find?_emplace_of_ne _ _ _ _ (fun h => hq2 h.symm)]
        exact esort
      · rw [ExecCache.find?_emplace_of_ne _ _ _ _ (fun h => hq1 h.symm)]
        exact ekey

/-- Witness for `getOrCreateExecutors_permutation_reuses_executors`: an empty
cache, feeds `["b", "a"]` permuted to `["a", "b"]`, one fetch, no targets. -/
theorem getOrCreateExecutors_permutation_reuses_executors_witness :
    (getOrCreateExecutors
        (getOrCreateExecutors ⟨[], 0⟩ ["b", "a"] ["y"] [] false "").2
        ["a", "b"] ["y"] [] false "").1 =
      (getOrCreateExecutors ⟨[], 0⟩ ["b", "a"] ["y"] [] false "").1 ∧
    (getOrCreateExecutors
        (getOrCreateExecutors ⟨[], 0⟩ ["b", "a"] ["y"] [] false "").2
        ["a", "b"] ["y"] [] false "").2.find?
        (cacheKey ["a", "b"] ["y"] [] false "") =
      some (getOrCreateExecutors ⟨[], 0⟩ ["b", "a"] ["y"] [] false "").1 ∧
    (getOrCreateExecutors
        (getOrCreateExecutors ⟨[], 0⟩ ["b", "a"] ["y"] [] false "").2
        ["a", "b"] ["y"] [] false "").2.find?
        (cacheKey (sortStrings ["b", "a"]) (sortStrings ["y"]) (sortStrings [])
          false "") =
      some (getOrCreateExecutors ⟨[], 0⟩ ["b", "a"] ["y"] [] false "").1 ∧
    (getOrCreateExecutors
        (getOrCreateExecutors ⟨[], 0⟩ ["b", "a"] ["y"] [] false "").2
        ["a", "b"] ["y"] [] false "").2.find?
        (cacheKey ["b", "a"] ["y"] [] false "") =
      some (getOrCreateExecutors ⟨[], 0⟩ ["b", "a"] ["y"] [] false "").1 :=
  getOrCreateExecutors_permutation_reuses_executors ⟨[], 0⟩
    ["b", "a"] ["y"] [] ["a", "b"] ["y"] [] false ""
    (by decide) (by decide) (by decide) (by rfl) (by rfl) (by rfl)

/-! ## Rendezvous keys for partial runs (claim C7) -/

/-- The attributes of a device relevant to rendezvous keys. -/
structure DeviceAttributes where
  name : String
  incarnation : Nat
  deriving DecidableEq, Repr

/-- A frame/iteration pair. -/
structure FrameAndIter where
  frame_id : Nat
  iter_id : Nat
  deriving DecidableEq, Repr

/-- Lowercase hexadecimal rendering of a natural number. -/
def hexString (n : Nat) : String := String.mk (Nat.toDigits 16 n)

/-- Modelled from the spec: `strings::FpToString` is library code outside the
provided sources; per the spec's key format (`hex(incarnation)`), it renders
the 64-bit fingerprint in hexadecimal. -/
def fpToString (n : Nat) : String := hexString n

/-- `GetRendezvousKey` (direct_session.cc:152-159): the `StrCat` of the
device name, the hex incarnation, the device name again, the tensor name,
and `frame_id:iter_id`, all semicolon-separated except the final colon. -/
def getRendezvousKey (tensorName : String) (d : DeviceAttributes)
    (fi : FrameAndIter) : String :=
  d.name ++ ";" ++ fpToString d.incarnation ++ ";" ++ d.name ++ ";" ++
    tensorName ++ ";" ++ toString fi.frame_id ++ ":" ++ toString fi.iter_id

/-- The partial-run branch of `DirectSession::CreateExecutors`
(direct_session.cc:1721-1725): the `input_name_to_rendezvous_key` map, one
entry per feed name, keyed by the client device's attributes with frame and
iteration both zero. -/
def buildInputRendezvousKeys (feeds : List String) (d : DeviceAttributes) :
    List (String × String) :=
  feeds.map (fun input => (input, getRendezvousKey input d ⟨0, 0⟩))

/-- The partial-run branch of `DirectSession::CreateExecutors`
(direct_session.cc:1726-1731): the `output_name_to_rendezvous_key` map, one
entry per fetch name. -/
def buildOutputRendezvousKeys (fetches : List String) (d : DeviceAttributes) :
    List (String × String) :=
  fetches.map (fun output => (output, getRendezvousKey output d ⟨0, 0⟩))

/-- Association-list lookup, the map-lookup used throughout. -/
def lookupStr (m : List (String × String)) (k : String) : Option String :=
  (m.find? (fun e => e.1 == k)).map (fun e => e.2)

/-- The rendezvous key format exactly as the spec states it:
`"{device_name};{hex(incarnation)};{device_name};{tensor_name};{frame_id}:{iter_id}"`.
This definition follows the spec's words, to be compared against the
key-building code embedded from the source. -/
def specRendezvousKeyFormat (deviceName : String) (incarnation : Nat)
    (tensorName : String) (frameId iterId : Nat) : String :=
  deviceName ++ ";" ++ hexString incarnation ++ ";" ++ deviceName ++ ";" ++
    tensorName ++ ";" ++ toString frameId ++ ":" ++ toString iterId

theorem lookup_map_self (f : String → String) (l : List String) (x : String)
    (h : x ∈ l) :
    lookupStr (l.map (fun s => (s, f s))) x = some (f x) := by
  induction l with
  | nil => cases h
  | cons a as ih =>
    rcases List.mem_cons.mp h with rfl | hmem
    · simp [lookupStr, List.find?_cons]
    · by_cases hax : a = x
      · subst hax; simp [lookupStr, List.find?_cons]
      · have : (a == x) = false := beq_eq_false_iff_ne.mpr hax
        simpa [lookupStr, List.find?_cons, this] using ih hmem

/-- C7: the rendezvous key stored for every partial-run feed name and fetch
name is byte-identical to the spec's format string built from the client
device's attributes (name twice, incarnation in hexadecimal) with frame id 0
and iteration id 0. -/
theorem prun_rendezvous_keys_match_spec_format
    (feeds fetches : List String) (d : DeviceAttributes) (name : String) :
    (name ∈ feeds →
      lookupStr (buildInputRendezvousKeys feeds d) name =
        some (specRendezvousKeyFormat d.name d.incarnation name 0 0)) ∧
    (name ∈ fetches →
      lookupStr (buildOutputRendezvousKeys fetches d) name =
        some (specRendezvousKeyFormat d.name d.incarnation name 0 0)) := by
  constructor
  · intro h
    have := lookup_map_self (fun s => getRendezvousKey s d ⟨0, 0⟩) feeds name h
    simpa [buildInputRendezvousKeys, getRendezvousKey, specRendezvousKeyFormat,
      fpToString] using this
  · intro h
    have := lookup_map_self (fun s => getRendezvousKey s d ⟨0, 0⟩) fetches name h
    simpa [buildOutputRendezvousKeys, getRendezvousKey, specRendezvousKeyFormat,
      fpToString] using this

/-- Witness for `prun_rendezvous_keys_match_spec_format`: one feed and one
fetch on a CPU client device. -/
theorem prun_rendezvous_keys_match_spec_format_witness :
    (("a:0" : String) ∈ ["a:0"] →
      lookupStr (buildInputRendezvousKeys ["a:0"]
          ⟨"/device:CPU:0", 11⟩) "a:0" =
        some (specRendezvousKeyFormat "/device:CPU:0" 11 "a:0" 0 0)) ∧
    (("a:0" : String) ∈ ["s:0"] →
      lookupStr (buildOutputRendezvousKeys ["s:0"]
          ⟨"/device:CPU:0", 11⟩) "a:0" =
        some (specRendezvousKeyFormat "/device:CPU:0" 11 "a:0" 0 0)) :=
  prun_rendezvous_keys_match_spec_format ["a:0"] ["s:0"] ⟨"/device:CPU:0", 11⟩ "a:0"

/-! ## Timeout handling in `RunInternal` / `WaitForNotification` (claim C3) -/

/-- `DirectSession::WaitForNotification(Notification*, int64)`
(direct_session.cc:2099-2113).  The notification and real time are
abstracted by the oracle `notifiedInTime`: whether the executors-done
notification fired within the timeout.  With a positive timeout, an
un-notified wait yields *deadline-exceeded*; with a non-positive timeout the
call blocks until notified and returns OK. -/
def waitForNotificationTimeout (notifiedInTime : Bool) (timeoutInMs : Int) :
    Status :=
  if timeoutInMs > 0 then
    if notifiedInTime then Status.OK
    else Status.deadlineExceededErr "Timed out waiting for notification"
  else Status.OK

/-- The per-step state of `RunInternal` observed by the timeout path:
the accumulated status (under `run_state.mu_`), whether the step
cancellation manager has been cancelled, and whether the second, blocking
wait on the executors-done notification has returned (after which no
executor is still running, since each executor signals the barrier before
completion). -/
structure RunStateW where
  status : Status
  cancelStarted : Bool
  drained : Bool
  deriving DecidableEq, Repr

/-- `DirectSession::WaitForNotification(RunState*, CancellationManager*, int64)`
(direct_session.cc:2081-2097): wait with the timeout; on failure update the
run state's status, cancel the step via the cancellation manager, and block
on the notification a second time (the drain). -/
def waitForNotificationRunState (rs : RunStateW) (notifiedInTime : Bool)
    (timeoutInMs : Int) : RunStateW :=
  let st := waitForNotificationTimeout notifiedInTime timeoutInMs
  if st.isOk then rs
  else { status := rs.status.update st, cancelStarted := true, drained := true }

/-- The effective timeout chosen by `RunInternal` (direct_session.cc:1004-1007):
`run_options.timeout_in_ms()` if positive, else the session's
`operation_timeout_in_ms_`. -/
def effectiveTimeout (runOptionsTimeoutInMs operationTimeoutInMs : Int) : Int :=
  if runOptionsTimeoutInMs > 0 then runOptionsTimeoutInMs
  else operationTimeoutInMs

/-- The wait-and-report tail of `RunInternal` (direct_session.cc:1004-1023):
wait with the effective timeout; then deregister the session-level
cancellation callback, recording *cancelled* if it had already fired
(`deregisterOk = false`); then propagate the accumulated status. -/
def runInternalWaitPhase (rs : RunStateW) (notifiedInTime : Bool)
    (runOptionsTimeout operationTimeout : Int) (deregisterOk : Bool) :
    Status × RunStateW :=
  let rs1 := waitForNotificationRunState rs notifiedInTime
    (effectiveTimeout runOptionsTimeout operationTimeout)
  let rs2 := if deregisterOk then rs1
    else { rs1 with status := rs1.status.update (Status.cancelledErr "Run call was cancelled") }
  (rs2.status, rs2)

/-- C3: when the effective timeout (run options value if positive, else the
session default) elapses before all executors have completed, the run
records *deadline-exceeded* in the step status, cancels the step via the
step cancellation manager, performs the second drain wait, and returns
*deadline-exceeded*. -/
theorem run_timeout_returns_deadline_exceeded
    (rs : RunStateW) (t1 t2 : Int) (dereg : Bool)
    (hok : rs.status.isOk = true)
    (heff : effectiveTimeout t1 t2 > 0) :
    (runInternalWaitPhase rs false t1 t2 dereg).1.code =
      ErrCode.deadlineExceeded ∧
    (runInternalWaitPhase rs false t1 t2 dereg).2.status.code =
      ErrCode.deadlineExceeded ∧
    (runInternalWaitPhase rs false t1 t2 dereg).2.cancelStarted = true ∧
    (runInternalWaitPhase rs false t1 t2 dereg).2.drained = true := by
  have hwait : waitForNotificationTimeout false (effectiveTimeout t1 t2) =
      Status.deadlineExceededErr "Timed out waiting for notification" := by
    simp [waitForNotificationTimeout, heff]
  have hcode : rs.status.code = ErrCode.ok := by
    simpa [Status.isOk] using hok
  cases dereg <;>
    simp [runInternalWaitPhase, waitForNotificationRunState, hwait, hcode,
      Status.update, Status.isOk, Status.deadlineExceededErr, Status.cancelledErr]

/-- Witness for `run_timeout_returns_deadline_exceeded`: an OK step state, a
50 ms run-options timeout, no session default, successful deregistration. -/
theorem run_timeout_returns_deadline_exceeded_witness :
    (runInternalWaitPhase ⟨Status.OK, false, false⟩ false 50 0 true).1.code =
      ErrCode.deadlineExceeded ∧
    (runInternalWaitPhase ⟨Status.OK, false, false⟩ false 50 0 true).2.status.code =
      ErrCode.deadlineExceeded ∧
    (runInternalWaitPhase ⟨Status.OK, false, false⟩ false 50 0 true).2.cancelStarted =
      true ∧
    (runInternalWaitPhase ⟨Status.OK, false, false⟩ false 50 0 true).2.drained =
      true :=
  run_timeout_returns_deadline_exceeded ⟨Status.OK, false, false⟩ 50 0 true
    (by decide) (by decide)

/-! ## Inter-op thread-pool validation and selection in `RunInternal` (claim C9) -/

/-- The inter-op pool finally used for dispatch, as a symbolic value:
inline caller-thread execution (`pool == nullptr` at dispatch), the
caller-supplied external pool, or the session pool at an index. -/
inductive PoolSel where
  | inlineExec
  | externalPool
  | sessionPool (i : Nat)
  deriving DecidableEq, Repr

/-- The pool assignment of direct_session.cc:926-934: `run_in_caller_thread_`
forces a null pool; else the external pool if supplied; else the indexed
session pool when the index is non-negative; else null. -/
def selectInterOpPool (runInCallerThread : Bool) (hasExternalPool : Bool)
    (interOpThreadPool : Int) : Option PoolSel :=
  if runInCallerThread then none
  else if hasExternalPool then some PoolSel.externalPool
  else if interOpThreadPool ≥ 0 then some (PoolSel.sessionPool interOpThreadPool.toNat)
  else none

/-- The null-pool fallback of direct_session.cc:936-944: with more than one
partition the null pool becomes session pool 0, otherwise execution is
inline in the caller thread. -/
def finalPool (p : Option PoolSel) (numItems : Nat) : PoolSel :=
  match p with
  | some q => q
  | none => if numItems > 1 then PoolSel.sessionPool 0 else PoolSel.inlineExec

/-- The outcome of the validation-plus-selection phase. -/
structure PoolPhaseResult where
  status : Status
  doneNotified : Bool
  pool : Option PoolSel
  deriving DecidableEq, Repr

/-- The thread-pool phase of `DirectSession::RunInternal`
(direct_session.cc:896-903 and 922-944): reject
`inter_op_thread_pool < -1` or `≥ thread_pools_.size()` with
*invalid-argument* after notifying the executors-done notification;
otherwise choose the pool. -/
def runInternalPoolPhase (interOpThreadPool : Int) (numThreadPools : Nat)
    (hasExternalPool runInCallerThread : Bool) (numItems : Nat) :
    PoolPhaseResult :=
  if interOpThreadPool < -1 ∨ interOpThreadPool ≥ (numThreadPools : Int) then
    { status := Status.invalidArgumentErr "Invalid inter_op_thread_pool: ",
      doneNotified := true, pool := none }
  else
    { status := Status.OK, doneNotified := false,
      pool := some (finalPool
        (selectInterOpPool runInCallerThread hasExternalPool interOpThreadPool)
        numItems) }

/-- The selection order exactly as claim C9 states it: the external pool if
supplied, else the pool at the index, else pool 0, with inline caller-thread
execution when only one partition is run in the caller thread.  This
definition follows the claim's words, to be compared with the embedded
code. -/
def claimSelectPool (hasExternalPool runInCallerThread : Bool)
    (interOpThreadPool : Int) (numItems : Nat) : PoolSel :=
  if runInCallerThread ∧ numItems = 1 then PoolSel.inlineExec
  else if hasExternalPool then PoolSel.externalPool
  else if interOpThreadPool ≥ 0 then PoolSel.sessionPool interOpThreadPool.toNat
  else PoolSel.sessionPool 0

/-- C9, counterexample to the claim as stated: with
`run_in_caller_thread_ = true`, an external pool supplied, two partitions
and pool index 0 (one session pool), the code ignores the external pool
(`run_in_caller_thread_` wins) and falls back to session pool 0, while the
claim's selection order picks the external pool. -/
theorem pool_selection_claim_counterexample :
    (runInternalPoolPhase 0 1 true true 2).pool = some (PoolSel.sessionPool 0) ∧
    claimSelectPool true true 0 2 = PoolSel.externalPool ∧
    (runInternalPoolPhase 0 1 true true 2).pool ≠ some (claimSelectPool true true 0 2) := by
  decide

/-- The selection cascade as amended: `run_in_caller_thread_` first forces
no pool even when an external pool is supplied; else external; else the
indexed pool when the index is non-negative; a still-unchosen pool becomes
pool 0 when more than one partition exists and inline execution otherwise. -/
def amendedSelectPool (runInCallerThread hasExternalPool : Bool)
    (interOpThreadPool : Int) (numItems : Nat) : PoolSel :=
  if runInCallerThread then
    (if numItems > 1 then PoolSel.sessionPool 0 else PoolSel.inlineExec)
  else if hasExternalPool then PoolSel.externalPool
  else if interOpThreadPool ≥ 0 then PoolSel.sessionPool interOpThreadPool.toNat
  else (if numItems > 1 then PoolSel.sessionPool 0 else PoolSel.inlineExec)

/-- C9 as amended: `RunInternal` accepts `inter_op_thread_pool` in
`[-1, thread_pools_.size())`; on an out-of-range value it notifies the
executors-done notification and returns *invalid-argument*; otherwise it
returns OK and selects the pool by the amended cascade: no option-derived
pool when `run_in_caller_thread_` (even if an external pool is supplied),
else the external pool if supplied, else the indexed pool when the index is
non-negative; if no pool was chosen, pool 0 with more than one partition and
inline caller-thread execution with a single partition. -/
theorem runInternal_pool_phase_amended (interOpThreadPool : Int)
    (numThreadPools : Nat) (hasExternalPool runInCallerThread : Bool)
    (numItems : Nat) :
    runInternalPoolPhase interOpThreadPool numThreadPools hasExternalPool
        runInCallerThread numItems =
      if interOpThreadPool < -1 ∨ interOpThreadPool ≥ (numThreadPools : Int) then
        { status := Status.invalidArgumentErr "Invalid inter_op_thread_pool: ",
          doneNotified := true, pool := none }
      else
        { status := Status.OK, doneNotified := false,
          pool := some (amendedSelectPool runInCallerThread hasExternalPool
            interOpThreadPool numItems) } := by
  by_cases h : interOpThreadPool < -1 ∨ interOpThreadPool ≥ (numThreadPools : Int)
  · simp [runInternalPoolPhase, h]
  · cases runInCallerThread <;> cases hasExternalPool <;>
      by_cases h0 : interOpThreadPool ≥ 0 <;>
      simp [runInternalPoolPhase, h, selectInterOpPool, finalPool,
        amendedSelectPool, h0]

/-! ## The partial-run protocol: `DirectSession::PRun` (claims C6, C10)

`PRun` (direct_session.cc:1298-1396) resolves the executors under the key
prefix of the handle and the run state under the handle, validates the feeds
and fetches against the pending maps, runs `CheckFetch`, sends the feeds into
the rendezvous, receives the fetches, saves the kept tensors, and finally —
under the lock — marks the used names, erasing the entry when everything is
done or when any of the send/receive/save steps failed. -/

/-- Boolean-valued map lookup (`pending_inputs.find`). -/
def lookupBool (m : List (String × Bool)) (k : String) : Option Bool :=
  match m with
  | [] => none
  | e :: rest => if e.1 = k then some e.2 else lookupBool rest k

/-- `it->second = true` on the entry for `k`. -/
def markTrue (m : List (String × Bool)) (k : String) : List (String × Bool) :=
  match m with
  | [] => []
  | e :: rest =>
    if e.1 = k then (e.1, true) :: markTrue rest k else e :: markTrue rest k

/-- The marking loops of direct_session.cc:1378-1385. -/
def markAll (m : List (String × Bool)) (names : List String) :
    List (String × Bool) :=
  names.foldl markTrue m

/-- The pending maps of a partial run's `RunState`
(direct_session.cc:2048-2054: initially every feed and fetch maps to
`false`). -/
structure PRunState where
  pendingInputs : List (String × Bool)
  pendingOutputs : List (String × Bool)
  deriving DecidableEq, Repr

/-- `RunState::PendingDone` (direct_session.cc:2071-2079). -/
def pendingDone (st : PRunState) : Bool :=
  st.pendingInputs.all (fun e => e.2) && st.pendingOutputs.all (fun e => e.2)

/-- The feed-validation loop of direct_session.cc:1324-1334. -/
def validateFeeds (pending : List (String × Bool)) (feeds : List String) :
    Status :=
  match feeds with
  | [] => Status.OK
  | f :: rest =>
    match lookupBool pending f with
    | none => Status.invalidArgumentErr
        ("The feed " ++ f ++ " was not specified in partial_run_setup.")
    | some true => Status.invalidArgumentErr
        ("The feed " ++ f ++ " has already been fed.")
    | some false => validateFeeds pending rest

/-- The fetch-validation loop of direct_session.cc:1336-1345. -/
def validateFetches (pending : List (String × Bool)) (fetches : List String) :
    Status :=
  match fetches with
  | [] => Status.OK
  | f :: rest =>
    match lookupBool pending f with
    | none => Status.invalidArgumentErr
        ("The fetch " ++ f ++ " was not specified in partial_run_setup.")
    | some true => Status.invalidArgumentErr
        ("The fetch " ++ f ++ " has already been fetched.")
    | some false => validateFetches pending rest

/-- First segment of `str_util::Split(handle, ';')`: the characters before
the first semicolon. -/
def splitFirst (l : List Char) : List Char :=
  match l with
  | [] => []
  | c :: rest => if c = ';' then [] else c :: splitFirst rest

/-- `parts[0]` of the handle split (direct_session.cc:1302-1303). -/
def handleKey (handle : String) : String := String.mk (splitFirst handle.toList)

/-- `partial_runs_.find(handle)`. -/
def findPRun (tbl : List (String × PRunState)) (h : String) : Option PRunState :=
  match tbl with
  | [] => none
  | e :: rest => if e.1 = h then some e.2 else findPRun rest h

/-- `partial_runs_.erase(handle)`. -/
def erasePRun (tbl : List (String × PRunState)) (h : String) :
    List (String × PRunState) :=
  match tbl with
  | [] => []
  | e :: rest => if e.1 = h then erasePRun rest h else e :: erasePRun rest h

/-- Updating the run state stored under a handle (the in-place mutation of
the pending maps through the `RunState*` pointer). -/
def updatePRun (tbl : List (String × PRunState)) (h : String) (st : PRunState) :
    List (String × PRunState) :=
  match tbl with
  | [] => []
  | e :: rest =>
    if e.1 = h then (h, st) :: updatePRun rest h st
    else e :: updatePRun rest h st

/-- The result of one `PRun` call: its status and the partial-runs table
afterwards. -/
structure PRunResult where
  status : Status
  partialRuns : List (String × PRunState)
  deriving DecidableEq, Repr

/-- `DirectSession::PRun` (direct_session.cc:1298-1396), with the external
collaborators — `CheckFetch` (embedded separately for claim C2),
`SendPRunInputs`, `RecvPRunOutputs` and `TensorStore::SaveTensors` — entering
through their status parameters.  `executorKeys` is the key set of
`executors_`; the `CheckNotClosed` gate is modelled separately
(`prunGate`). -/
def prun (executorKeys : List String) (tbl : List (String × PRunState))
    (handle : String) (feeds fetches : List String)
    (checkFetchStatus sendStatus recvStatus saveStatus : Status) : PRunResult :=
  if executorKeys.contains (handleKey handle) = false then
    { status := Status.invalidArgumentErr
        "Must run 'setup' before performing partial runs!",
      partialRuns := tbl }
  else
    match findPRun tbl handle with
    | none =>
      { status := Status.invalidArgumentErr
          "Must run 'setup' before performing partial runs!",
        partialRuns := tbl }
    | some st =>
      let vf := validateFeeds st.pendingInputs feeds
      if vf.isOk = false then { status := vf, partialRuns := tbl }
      else
        let vo := validateFetches st.pendingOutputs fetches
        if vo.isOk = false then { status := vo, partialRuns := tbl }
        else if checkFetchStatus.isOk = false then
          { status := checkFetchStatus, partialRuns := tbl }
        else
          let s := (sendStatus.andThen recvStatus).andThen saveStatus
          if s.isOk then
            let st2 : PRunState :=
              { pendingInputs := markAll st.pendingInputs feeds,
                pendingOutputs := markAll st.pendingOutputs fetches }
            if pendingDone st2 then
              { status := s, partialRuns := erasePRun tbl handle }
            else
              { status := s, partialRuns := updatePRun tbl handle st2 }
          else
            { status := s, partialRuns := erasePRun tbl handle }

theorem validateFeeds_bad (pending : List (String × Bool)) (feeds : List String)
    (h : ∃ f ∈ feeds, lookupBool pending f ≠ some false) :
    (validateFeeds pending feeds).code = ErrCode.invalidArgument := by
  induction feeds with
  | nil => rcases h with ⟨f, hf, _⟩; cases hf
  | cons a rest ih =>
    rcases h with ⟨f, hf, hbad⟩
    by_cases hl : lookupBool pending a = some false
    · rcases List.mem_cons.mp hf with rfl | hmem
      · exact absurd hl hbad
      · simp only [validateFeeds, hl]
        exact ih ⟨f, hmem, hbad⟩
    · cases hla : lookupBool pending a with
      | none => simp [validateFeeds, hla, Status.invalidArgumentErr]
      | some b =>
        cases b with
        | false => exact absurd hla hl
        | true => simp [validateFeeds, hla, Status.invalidArgumentErr]

theorem validateFeeds_ok (pending : List (String × Bool)) (feeds : List String)
    (h : ∀ f ∈ feeds, lookupBool pending f = some false) :
    validateFeeds pending feeds = Status.OK := by
  induction feeds with
  | nil => rfl
  | cons a rest ih =>
    have ha := h a (List.mem_cons_self a rest)
    simp only [validateFeeds, ha]
    exact ih (fun f hf => h f (List.mem_cons_of_mem a hf))

theorem validateFetches_bad (pending : List (String × Bool))
    (fetches : List String)
    (h : ∃ g ∈ fetches, lookupBool pending g ≠ some false) :
    (validateFetches pending fetches).code = ErrCode.invalidArgument := by
  induction fetches with
  | nil => rcases h with ⟨g, hg, _⟩; cases hg
  | cons a rest ih =>
    rcases h with ⟨g, hg, hbad⟩
    by_cases hl : lookupBool pending a = some false
    · rcases List.mem_cons.mp hg with rfl | hmem
      · exact absurd hl hbad
      · simp only [validateFetches, hl]
        exact ih ⟨g, hmem, hbad⟩
    · cases hla : lookupBool pending a with
      | none => simp [validateFetches, hla, Status.invalidArgumentErr]
      | some b =>
        cases b with
        | false => exact absurd hla hl
        | true => simp [validateFetches, hla, Status.invalidArgumentErr]

theorem validateFetches_ok (pending : List (String × Bool))
    (fetches : List String)
    (h : ∀ g ∈ fetches, lookupBool pending g = some false) :
    validateFetches pending fetches = Status.OK := by
  induction fetches with
  | nil => rfl
  | cons a rest ih =>
    have ha := h a (List.mem_cons_self a rest)
    simp only [validateFetches, ha]
    exact ih (fun g hg => h g (List.mem_cons_of_mem a hg))

theorem validateFeeds_ok_or_invalid (pending : List (String × Bool))
    (feeds : List String) :
    validateFeeds pending feeds = Status.OK ∨
      (validateFeeds pending feeds).code = ErrCode.invalidArgument := by
  induction feeds with
  | nil => left; rfl
  | cons a rest ih =>
    cases hla : lookupBool pending a with
    | none => right; simp [validateFeeds, hla, Status.invalidArgumentErr]
    | some b =>
      cases b with
      | false => simpa [validateFeeds, hla] using ih
      | true => right; simp [validateFeeds, hla, Status.invalidArgumentErr]

theorem validateFetches_ok_or_invalid (pending : List (String × Bool))
    (fetches : List String) :
    validateFetches pending fetches = Status.OK ∨
      (validateFetches pending fetches).code = ErrCode.invalidArgument := by
  induction fetches with
  | nil => left; rfl
  | cons a rest ih =>
    cases hla : lookupBool pending a with
    | none => right; simp [validateFetches, hla, Status.invalidArgumentErr]
    | some b =>
      cases b with
      | false => simpa [validateFetches, hla] using ih
      | true => right; simp [validateFetches, hla, Status.invalidArgumentErr]

theorem lookupBool_markTrue_self (m : List (String × Bool)) (k : String)
    (b : Bool) (h : lookupBool m k = some b) :
    lookupBool (markTrue m k) k = some true := by
  induction m with
  | nil => simp [lookupBool] at h
  | cons e rest ih =>
    by_cases he : e.1 = k
    · simp [lookupBool, markTrue, he]
    · simp only [lookupBool, he, if_false] at h
      simp only [markTrue, he, if_false, lookupBool]
      exact ih h

theorem lookupBool_markTrue_other (m : List (String × Bool)) (k k' : String)
    (h : k' ≠ k) : lookupBool (markTrue m k) k' = lookupBool m k' := by
  induction m with
  | nil => rfl
  | cons e rest ih =>
    by_cases he : e.1 = k
    · have hne : ¬(k = k') := fun hk => h hk.symm
      simp only [markTrue, he, if_pos, lookupBool, hne, if_false]
      exact ih
    · simp only [markTrue, he, if_false, lookupBool]
      by_cases he2 : e.1 = k'
      · simp [he2]
      · simp only [he2, if_false]
        exact ih

theorem lookupBool_markAll_true (names : List String) :
    ∀ (m : List (String × Bool)) (k : String),
      lookupBool m k = some true →
      lookupBool (markAll m names) k = some true := by
  induction names with
  | nil => intro m k h; exact h
  | cons n rest ih =>
    intro m k h
    simp only [markAll, List.foldl_cons] at *
    by_cases hn : k = n
    · exact ih _ _ (by subst hn; exact lookupBool_markTrue_self m k true h)
    · exact ih _ _ (by rw [lookupBool_markTrue_other m n k hn]; exact h)

theorem lookupBool_markAll_mem (names : List String) :
    ∀ (m : List (String × Bool)) (k : String) (b : Bool), k ∈ names →
      lookupBool m k = some b →
      lookupBool (markAll m names) k = some true := by
  induction names with
  | nil => intro m k b hmem; cases hmem
  | cons n rest ih =>
    intro m k b hmem h
    simp only [markAll, List.foldl_cons] at *
    by_cases hn : k = n
    · subst hn
      exact lookupBool_markAll_true rest _ k (lookupBool_markTrue_self m k b h)
    · rcases List.mem_cons.mp hmem with rfl | hmem2
      · exact absurd rfl hn
      · exact ih _ k b hmem2 (by rw [lookupBool_markTrue_other m n k hn]; exact h)

theorem findPRun_erase_self (tbl : List (String × PRunState)) (h : String) :
    findPRun (erasePRun tbl h) h = none := by
  induction tbl with
  | nil => rfl
  | cons e rest ih =>
    by_cases he : e.1 = h
    · simp only [erasePRun, he, if_pos]
      exact ih
    · simp only [erasePRun, he, if_false, findPRun]
      exact ih

theorem findPRun_update_self (tbl : List (String × PRunState)) (h : String)
    (st st2 : PRunState) (hf : findPRun tbl h = some st) :
    findPRun (updatePRun tbl h st2) h = some st2 := by
  induction tbl with
  | nil => simp [findPRun] at hf
  | cons e rest ih =>
    by_cases he : e.1 = h
    · simp [updatePRun, he, findPRun]
    · simp only [findPRun, he, if_false] at hf
      simp only [updatePRun, he, if_false, findPRun]
      exact ih hf

theorem Status.andThen_isOk (a b : Status) :
    (a.andThen b).isOk = (a.isOk && b.isOk) := by
  by_cases h : a.isOk <;> simp [Status.andThen, h]

/-- Reduction of `PRun` when the handle resolves and every validation and
collaborator step succeeds: the used names are marked and the entry is
erased exactly when everything is now done. -/
theorem prun_eq_of_valid (executorKeys : List String)
    (tbl : List (String × PRunState)) (handle : String)
    (feeds fetches : List String) (cfs ss rs sv : Status) (st : PRunState)
    (hkey : executorKeys.contains (handleKey handle) = true)
    (hfind : findPRun tbl handle = some st)
    (hvf : validateFeeds st.pendingInputs feeds = Status.OK)
    (hvo : validateFetches st.pendingOutputs fetches = Status.OK)
    (hcfs : cfs.isOk = true)
    (hs : ((ss.andThen rs).andThen sv).isOk = true) :
    prun executorKeys tbl handle feeds fetches cfs ss rs sv =
      if pendingDone ⟨markAll st.pendingInputs feeds,
          markAll st.pendingOutputs fetches⟩ then
        { status := (ss.andThen rs).andThen sv,
          partialRuns := erasePRun tbl handle }
      else
        { status := (ss.andThen rs).andThen sv,
          partialRuns := updatePRun tbl handle
            ⟨markAll st.pendingInputs feeds, markAll st.pendingOutputs fetches⟩ } := by
  have hmem : handleKey handle ∈ executorKeys := by simpa using hkey
  simp only [Status.isOk, beq_iff_eq] at hcfs hs
  simp [prun, hmem, hfind, hvf, hvo, hcfs, hs, Status.isOk, Status.OK]

/-- Reduction of `PRun` when the handle resolves but a validation step or
`CheckFetch` fails: the failing status is returned with the table
untouched. -/
theorem prun_eq_of_validation_failure (executorKeys : List String)
    (tbl : List (String × PRunState)) (handle : String)
    (feeds fetches : List String) (cfs ss rs sv : Status) (st : PRunState)
    (hkey : executorKeys.contains (handleKey handle) = true)
    (hfind : findPRun tbl handle = some st) :
    ((validateFeeds st.pendingInputs feeds).isOk = false →
      prun executorKeys tbl handle feeds fetches cfs ss rs sv =
        { status := validateFeeds st.pendingInputs feeds, partialRuns := tbl }) ∧
    ((validateFeeds st.pendingInputs feeds).isOk = true →
     (validateFetches st.pendingOutputs fetches).isOk = false →
      prun executorKeys tbl handle feeds fetches cfs ss rs sv =
        { status := validateFetches st.pendingOutputs fetches,
          partialRuns := tbl }) ∧
    ((validateFeeds st.pendingInputs feeds).isOk = true →
     (validateFetches st.pendingOutputs fetches).isOk = true →
     cfs.isOk = false →
      prun executorKeys tbl handle feeds fetches cfs ss rs sv =
        { status := cfs, partialRuns := tbl }) := by
  have hmem : handleKey handle ∈ executorKeys := by simpa using hkey
  refine ⟨fun h1 => ?_, fun h1 h2 => ?_, fun h1 h2 h3 => ?_⟩ <;>
    simp [prun, hmem, hfind, h1, *]

/-- Reduction of `PRun` when validation and `CheckFetch` pass but a later
step fails: the entry is erased. -/
theorem prun_eq_of_late_failure (executorKeys : List String)
    (tbl : List (String × PRunState)) (handle : String)
    (feeds fetches : List String) (cfs ss rs sv : Status) (st : PRunState)
    (hkey : executorKeys.contains (handleKey handle) = true)
    (hfind : findPRun tbl handle = some st)
    (hvf : validateFeeds st.pendingInputs feeds = Status.OK)
    (hvo : validateFetches st.pendingOutputs fetches = Status.OK)
    (hcfs : cfs.isOk = true)
    (hs : ((ss.andThen rs).andThen sv).isOk = false) :
    prun executorKeys tbl handle feeds fetches cfs ss rs sv =
      { status := (ss.andThen rs).andThen sv,
        partialRuns := erasePRun tbl handle } := by
  have hmem : handleKey handle ∈ executorKeys := by simpa using hkey
  simp only [Status.isOk, beq_iff_eq] at hcfs
  simp only [Status.isOk, beq_eq_false_iff_ne, ne_eq] at hs
  simp [prun, hmem, hfind, hvf, hvo, hcfs, hs, Status.isOk, Status.OK]

/-- Reduction of `PRun` when the handle is not in the partial-runs table. -/
theorem prun_eq_of_no_handle (executorKeys : List String)
    (tbl : List (String × PRunState)) (handle : String)
    (feeds fetches : List String) (cfs ss rs sv : Status)
    (hfind : findPRun tbl handle = none) :
    prun executorKeys tbl handle feeds fetches cfs ss rs sv =
      { status := Status.invalidArgumentErr
          "Must run 'setup' before performing partial runs!",
        partialRuns := tbl } := by
  cases hkey : executorKeys.contains (handleKey handle) with
  | false => simp [prun, hkey, hfind]
  | true =>
    have hmem : handleKey handle ∈ executorKeys := by simpa using hkey
    simp [prun, hmem, hfind]

/-- C6: `PRun` rejects with *invalid-argument* any feed whose name is not in
the handle's `pending_inputs` map or whose entry is already `true`, and any
fetch not in `pending_outputs` or already `true` (leaving the table
unchanged); consequently a feed or fetch name accepted by one `PRun` call
cannot be used again in a second `PRun` call on the same handle — the
second call fails with *invalid-argument*. -/
theorem prun_pending_validation_and_no_reuse
    (executorKeys : List String) (tbl : List (String × PRunState))
    (handle : String) (feeds fetches feeds2 fetches2 : List String)
    (cfs ss rs sv cfs2 ss2 rs2 sv2 : Status) (st : PRunState)
    (hkey : executorKeys.contains (handleKey handle) = true)
    (hfind : findPRun tbl handle = some st) :
    (((∃ f ∈ feeds, lookupBool st.pendingInputs f ≠ some false) ∨
      (∃ g ∈ fetches, lookupBool st.pendingOutputs g ≠ some false)) →
      (prun executorKeys tbl handle feeds fetches cfs ss rs sv).status.code =
        ErrCode.invalidArgument ∧
      (prun executorKeys tbl handle feeds fetches cfs ss rs sv).partialRuns =
        tbl) ∧
    ((∀ f ∈ feeds, lookupBool st.pendingInputs f = some false) →
     (∀ g ∈ fetches, lookupBool st.pendingOutputs g = some false) →
     cfs.isOk = true → ss.isOk = true → rs.isOk = true → sv.isOk = true →
     ((∃ f ∈ feeds, f ∈ feeds2) ∨ (∃ g ∈ fetches, g ∈ fetches2)) →
      (prun executorKeys
          (prun executorKeys tbl handle feeds fetches cfs ss rs sv).partialRuns
          handle feeds2 fetches2 cfs2 ss2 rs2 sv2).status.code =
        ErrCode.invalidArgument) := by
  constructor
  · intro hbad
    rcases hbad with hbf | hbg
    · have hvf := validateFeeds_bad st.pendingInputs feeds hbf
      have hvf2 : (validateFeeds st.pendingInputs feeds).isOk = false := by
        simp [Status.isOk, hvf]
      rw [(prun_eq_of_validation_failure executorKeys tbl handle feeds fetches
        cfs ss rs sv st hkey hfind).1 hvf2]
      exact ⟨hvf, rfl⟩
    · rcases validateFeeds_ok_or_invalid st.pendingInputs feeds with hvf | hvf
      · have hvf2 : (validateFeeds st.pendingInputs feeds).isOk = true := by
          simp [Status.isOk, hvf, Status.OK]
        have hvo := validateFetches_bad st.pendingOutputs fetches hbg
        have hvo2 : (validateFetches st.pendingOutputs fetches).isOk = false := by
          simp [Status.isOk, hvo]
        rw [(prun_eq_of_validation_failure executorKeys tbl handle feeds fetches
          cfs ss rs sv st hkey hfind).2.1 hvf2 hvo2]
        exact ⟨hvo, rfl⟩
      · have hvf2 : (validateFeeds st.pendingInputs feeds).isOk = false := by
          simp [Status.isOk, hvf]
        rw [(prun_eq_of_validation_failure executorKeys tbl handle feeds fetches
          cfs ss rs sv st hkey hfind).1 hvf2]
        exact ⟨hvf, rfl⟩
  · intro hgf hgg hcfs hss hrs hsv hreuse
    have hvf := validateFeeds_ok st.pendingInputs feeds hgf
    have hvo := validateFetches_ok st.pendingOutputs fetches hgg
    have hs : ((ss.andThen rs).andThen sv).isOk = true := by
      simp [Status.andThen_isOk, hss, hrs, hsv]
    rw [prun_eq_of_valid executorKeys tbl handle feeds fetches cfs ss rs sv st
      hkey hfind hvf hvo hcfs hs]
    set st2 : PRunState := ⟨markAll st.pendingInputs feeds,
      markAll st.pendingOutputs fetches⟩ with hst2
    by_cases hdone : pendingDone st2 = true
    · simp only [hdone, if_pos]
      rw [prun_eq_of_no_handle executorKeys _ handle feeds2 fetches2
        cfs2 ss2 rs2 sv2 (findPRun_erase_self tbl handle)]
      rfl
    · simp only [hdone, if_neg, Bool.not_eq_true]
      have hfind2 : findPRun (updatePRun tbl handle st2) handle = some st2 :=
        findPRun_update_self tbl handle st st2 hfind
      have hbad2 : (∃ f ∈ feeds2, lookupBool st2.pendingInputs f ≠ some false) ∨
          (∃ g ∈ fetches2, lookupBool st2.pendingOutputs g ≠ some false) := by
        rcases hreuse with ⟨f, hf1, hf2⟩ | ⟨g, hg1, hg2⟩
        · left
          refine ⟨f, hf2, ?_⟩
          rw [hst2]
          rw [lookupBool_markAll_mem feeds st.pendingInputs f false hf1 (hgf f hf1)]
          simp
        · right
          refine ⟨g, hg2, ?_⟩
          rw [hst2]
          rw [lookupBool_markAll_mem fetches st.pendingOutputs g false hg1 (hgg g hg1)]
          simp
      rcases hbad2 with hbf2 | hbg2
      · have hvf2 := validateFeeds_bad st2.pendingInputs feeds2 hbf2
        have hvf2b : (validateFeeds st2.pendingInputs feeds2).isOk = false := by
          simp [Status.isOk, hvf2]
        rw [(prun_eq_of_validation_failure executorKeys _ handle feeds2 fetches2
          cfs2 ss2 rs2 sv2 st2 hkey hfind2).1 hvf2b]
        exact hvf2
      · rcases validateFeeds_ok_or_invalid st2.pendingInputs feeds2 with hvf2 | hvf2
        · have hvf2b : (validateFeeds st2.pendingInputs feeds2).isOk = true := by
            simp [Status.isOk, hvf2, Status.OK]
          have hvo2 := validateFetches_bad st2.pendingOutputs fetches2 hbg2
          have hvo2b : (validateFetches st2.pendingOutputs fetches2).isOk = false := by
            simp [Status.isOk, hvo2]
          rw [(prun_eq_of_validation_failure executorKeys _ handle feeds2 fetches2
            cfs2 ss2 rs2 sv2 st2 hkey hfind2).2.1 hvf2b hvo2b]
          exact hvo2
        · have hvf2b : (validateFeeds st2.pendingInputs feeds2).isOk = false := by
            simp [Status.isOk, hvf2]
          rw [(prun_eq_of_validation_failure executorKeys _ handle feeds2 fetches2
            cfs2 ss2 rs2 sv2 st2 hkey hfind2).1 hvf2b]
          exact hvf2

/-- Witness for `prun_pending_validation_and_no_reuse`: a handle with feeds
`a:0`, `b:0` and fetch `s:0`; the first call feeds `a:0`; feeding `a:0`
again in a second call is rejected, and a call feeding the unknown `z:0`
is rejected with the table unchanged. -/
theorem prun_pending_validation_and_no_reuse_witness :
    ((((∃ f ∈ ["a:0"], lookupBool [("a:0", false), ("b:0", false)] f ≠ some false) ∨
      (∃ g ∈ ([] : List String),
        lookupBool [("s:0", false)] g ≠ some false)) →
      (prun ["k"] [("k;0", ⟨[("a:0", false), ("b:0", false)], [("s:0", false)]⟩)]
          "k;0" ["a:0"] [] Status.OK Status.OK Status.OK Status.OK).status.code =
        ErrCode.invalidArgument ∧
      (prun ["k"] [("k;0", ⟨[("a:0", false), ("b:0", false)], [("s:0", false)]⟩)]
          "k;0" ["a:0"] [] Status.OK Status.OK Status.OK Status.OK).partialRuns =
        [("k;0", ⟨[("a:0", false), ("b:0", false)], [("s:0", false)]⟩)]) ∧
    ((∀ f ∈ ["a:0"],
        lookupBool [("a:0", false), ("b:0", false)] f = some false) →
     (∀ g ∈ ([] : List String), lookupBool [("s:0", false)] g = some false) →
     Status.OK.isOk = true → Status.OK.isOk = true → Status.OK.isOk = true →
     Status.OK.isOk = true →
     ((∃ f ∈ ["a:0"], f ∈ ["a:0"]) ∨
      (∃ g ∈ ([] : List String), g ∈ ([] : List String))) →
      (prun ["k"]
          (prun ["k"] [("k;0", ⟨[("a:0", false), ("b:0", false)], [("s:0", false)]⟩)]
            "k;0" ["a:0"] [] Status.OK Status.OK Status.OK Status.OK).partialRuns
          "k;0" ["a:0"] [] Status.OK Status.OK Status.OK Status.OK).status.code =
        ErrCode.invalidArgument)) :=
  prun_pending_validation_and_no_reuse ["k"]
    [("k;0", ⟨[("a:0", false), ("b:0", false)], [("s:0", false)]⟩)]
    "k;0" ["a:0"] [] ["a:0"] [] Status.OK Status.OK Status.OK Status.OK
    Status.OK Status.OK Status.OK Status.OK
    ⟨[("a:0", false), ("b:0", false)], [("s:0", false)]⟩
    (by decide) (by decide)

/-- C10: once a `PRun` call has passed the pending-map validation and
`CheckFetch`, a failure while sending the feeds or receiving the fetches
(a dead fetched tensor included) erases the partial-run entry, so the
handle is permanently invalid — a subsequent `PRun` on it fails with
*invalid-argument*.  A failure during pending-map validation or `CheckFetch`
returns before any state change: the table (and so the pending maps) is
unchanged and the handle still resolves. -/
theorem prun_late_failure_erases_early_failure_preserves
    (executorKeys : List String) (tbl : List (String × PRunState))
    (handle : String) (feeds fetches feeds2 fetches2 : List String)
    (cfs ss rs sv cfs2 ss2 rs2 sv2 : Status) (st : PRunState)
    (hkey : executorKeys.contains (handleKey handle) = true)
    (hfind : findPRun tbl handle = some st) :
    (((validateFeeds st.pendingInputs feeds).isOk = false ∨
      ((validateFeeds st.pendingInputs feeds).isOk = true ∧
       (validateFetches st.pendingOutputs fetches).isOk = false) ∨
      ((validateFeeds st.pendingInputs feeds).isOk = true ∧
       (validateFetches st.pendingOutputs fetches).isOk = true ∧
       cfs.isOk = false)) →
      (prun executorKeys tbl handle feeds fetches cfs ss rs sv).partialRuns =
        tbl ∧
      findPRun (prun executorKeys tbl handle feeds fetches cfs ss rs
        sv).partialRuns handle = some st) ∧
    ((validateFeeds st.pendingInputs feeds).isOk = true →
     (validateFetches st.pendingOutputs fetches).isOk = true →
     cfs.isOk = true →
     (ss.isOk = false ∨ rs.isOk = false) →
      (prun executorKeys tbl handle feeds fetches cfs ss rs sv).partialRuns =
        erasePRun tbl handle ∧
      findPRun (prun executorKeys tbl handle feeds fetches cfs ss rs
        sv).partialRuns handle = none ∧
      (prun executorKeys
          (prun executorKeys tbl handle feeds fetches cfs ss rs sv).partialRuns
          handle feeds2 fetches2 cfs2 ss2 rs2 sv2).status.code =
        ErrCode.invalidArgument) := by
  obtain ⟨hred1, hred2, hred3⟩ := prun_eq_of_validation_failure executorKeys tbl
    handle feeds fetches cfs ss rs sv st hkey hfind
  constructor
  · intro hearly
    rcases hearly with h1 | ⟨h1, h2⟩ | ⟨h1, h2, h3⟩
    · rw [hred1 h1]; exact ⟨rfl, hfind⟩
    · rw [hred2 h1 h2]; exact ⟨rfl, hfind⟩
    · rw [hred3 h1 h2 h3]; exact ⟨rfl, hfind⟩
  · intro hvf hvo hcfs hfail
    have hvfEq : validateFeeds st.pendingInputs feeds = Status.OK := by
      rcases validateFeeds_ok_or_invalid st.pendingInputs feeds with h | h
      · exact h
      · exfalso; rw [Status.isOk] at hvf; simp [h] at hvf
    have hvoEq : validateFetches st.pendingOutputs fetches = Status.OK := by
      rcases validateFetches_ok_or_invalid st.pendingOutputs fetches with h | h
      · exact h
      · exfalso; rw [Status.isOk] at hvo; simp [h] at hvo
    have hs : ((ss.andThen rs).andThen sv).isOk = false := by
      rcases hfail with h | h <;>
        simp [Status.andThen_isOk, h]
    rw [prun_eq_of_late_failure executorKeys tbl handle feeds fetches cfs ss rs
      sv st hkey hfind hvfEq hvoEq hcfs hs]
    refine ⟨rfl, findPRun_erase_self tbl handle, ?_⟩
    rw [prun_eq_of_no_handle executorKeys _ handle feeds2 fetches2 cfs2 ss2 rs2
      sv2 (findPRun_erase_self tbl handle)]
    rfl

/-- Witness for `prun_late_failure_erases_early_failure_preserves`: a handle
with feed `a:0` and fetch `s:0`, validation and `CheckFetch` passing, and
the rendezvous `Send` failing; the entry is erased and a retry on the handle
is rejected. -/
theorem prun_late_failure_erases_early_failure_preserves_witness :
    (((validateFeeds [("a:0", false)] ["a:0"]).isOk = false ∨
      ((validateFeeds [("a:0", false)] ["a:0"]).isOk = true ∧
       (validateFetches [("s:0", false)] ["s:0"]).isOk = false) ∨
      ((validateFeeds [("a:0", false)] ["a:0"]).isOk = true ∧
       (validateFetches [("s:0", false)] ["s:0"]).isOk = true ∧
       Status.OK.isOk = false)) →
      (prun ["k"] [("k;0", ⟨[("a:0", false)], [("s:0", false)]⟩)] "k;0"
          ["a:0"] ["s:0"] Status.OK (Status.cancelledErr "send aborted")
          Status.OK Status.OK).partialRuns =
        [("k;0", ⟨[("a:0", false)], [("s:0", false)]⟩)] ∧
      findPRun (prun ["k"] [("k;0", ⟨[("a:0", false)], [("s:0", false)]⟩)]
          "k;0" ["a:0"] ["s:0"] Status.OK (Status.cancelledErr "send aborted")
          Status.OK Status.OK).partialRuns "k;0" =
        some ⟨[("a:0", false)], [("s:0", false)]⟩) ∧
    ((validateFeeds [("a:0", false)] ["a:0"]).isOk = true →
     (validateFetches [("s:0", false)] ["s:0"]).isOk = true →
     Status.OK.isOk = true →
     ((Status.cancelledErr "send aborted").isOk = false ∨
      Status.OK.isOk = false) →
      (prun ["k"] [("k;0", ⟨[("a:0", false)], [("s:0", false)]⟩)] "k;0"
          ["a:0"] ["s:0"] Status.OK (Status.cancelledErr "send aborted")
          Status.OK Status.OK).partialRuns =
        erasePRun [("k;0", ⟨[("a:0", false)], [("s:0", false)]⟩)] "k;0" ∧
      findPRun (prun ["k"] [("k;0", ⟨[("a:0", false)], [("s:0", false)]⟩)]
          "k;0" ["a:0"] ["s:0"] Status.OK (Status.cancelledErr "send aborted")
          Status.OK Status.OK).partialRuns "k;0" = none ∧
      (prun ["k"]
          (prun ["k"] [("k;0", ⟨[("a:0", false)], [("s:0", false)]⟩)] "k;0"
            ["a:0"] ["s:0"] Status.OK (Status.cancelledErr "send aborted")
            Status.OK Status.OK).partialRuns
          "k;0" [] ["s:0"] Status.OK Status.OK Status.OK
          Status.OK).status.code = ErrCode.invalidArgument) :=
  prun_late_failure_erases_early_failure_preserves ["k"]
    [("k;0", ⟨[("a:0", false)], [("s:0", false)]⟩)] "k;0"
    ["a:0"] ["s:0"] [] ["s:0"] Status.OK (Status.cancelledErr "send aborted")
    Status.OK Status.OK Status.OK Status.OK Status.OK Status.OK
    ⟨[("a:0", false)], [("s:0", false)]⟩ (by decide) (by decide)

/-! ## Duplicate fetch names in `Run` (claim C8)

`DirectSession::Run` (direct_session.cc:1162-1203) consumes the call frame's
return values (`sorted_outputs`, indexed through
`ek->output_name_to_index`, built over the sorted fetch list in
`CreateExecutors`, direct_session.cc:1711-1714) and assembles the caller's
output vector in `output_names` order, copying duplicate positions from the
first occurrence of the name. -/

/-- Nat-valued map lookup (`output_name_to_index` access). -/
def lookupNat (m : List (String × Nat)) (k : String) : Option Nat :=
  match m with
  | [] => none
  | e :: rest => if e.1 = k then some e.2 else lookupNat rest k

/-- `output_name_to_index[k] = v`: overwrite-insert. -/
def mapInsertNat (m : List (String × Nat)) (k : String) (v : Nat) :
    List (String × Nat) :=
  match m with
  | [] => [(k, v)]
  | e :: rest => if e.1 = k then (k, v) :: rest else e :: mapInsertNat rest k v

/-- The index-building loop of direct_session.cc:1711-1714 starting at a
given ordinal. -/
def buildNameToIndexFrom (fetches : List String) (i : Nat)
    (m : List (String × Nat)) : List (String × Nat) :=
  match fetches with
  | [] => m
  | f :: rest => buildNameToIndexFrom rest (i + 1) (mapInsertNat m f i)

/-- `ek->output_name_to_index` for a fetch list. -/
def buildNameToIndex (fetches : List String) : List (String × Nat) :=
  buildNameToIndexFrom fetches 0 []

/-- The inner scan of direct_session.cc:1179-1186: the smallest `j ≤ i` with
`output_names[j] = output_names[i]` (the scan always stops at `j = i`; the
structural fuel argument counts the remaining iterations and is always
sufficient at the call site). -/
def firstIndexAux (names : List String) (i : Nat) : Nat → Nat → Nat
  | 0, _ => i
  | Nat.succ s, j =>
    if i ≤ j then i
    else if names.getD j "" = names.getD i "" then j
    else firstIndexAux names i s (j + 1)

/-- `first_indices` (direct_session.cc:1176-1186). -/
def firstIndices (names : List String) : List Nat :=
  (List.range names.length).map (fun i => firstIndexAux names i (i + 1) 0)

/-- The body of one iteration of the output-assembly loop
(direct_session.cc:1191-1199): a first occurrence moves the call-frame
tensor at the name's retval index, a repeat copies the already-assembled
tensor at the first occurrence. -/
def assembleStep (names : List String) (fidx : List Nat)
    (m : List (String × Nat)) (sorted : List α) (dflt : α) (i : Nat)
    (outputs : List α) : α :=
  if fidx.isEmpty ∨ fidx.getD i 0 = i then
    sorted.getD ((lookupNat m (names.getD i "")).getD 0) dflt
  else outputs.getD (fidx.getD i 0) dflt

/-- The output-assembly loop of direct_session.cc:1191-1201; the structural
fuel argument counts the remaining iterations and is always sufficient at
the call site. -/
def assembleLoop (names : List String) (fidx : List Nat)
    (m : List (String × Nat)) (sorted : List α) (dflt : α) :
    Nat → Nat → List α → List α
  | 0, _, outputs => outputs
  | Nat.succ r, i, outputs =>
    if i < names.length then
      assembleLoop names fidx m sorted dflt r (i + 1)
        (outputs ++ [assembleStep names fidx m sorted dflt i outputs])
    else outputs

/-- The receive-outputs phase of `DirectSession::Run`
(direct_session.cc:1162-1203): `sorted` is the retval vector the call frame
produced; the name-to-index map is the one `CreateExecutors` built over the
sorted fetch list; `first_indices` is computed only when the fetch names are
not unique. -/
def runOutputs (names : List String) (sorted : List α) (dflt : α) : List α :=
  let m := buildNameToIndex (sortStrings names)
  let fidx := if names.length = m.length then [] else firstIndices names
  assembleLoop names fidx m sorted dflt names.length 0 []

theorem firstIndexAux_le (names : List String) (i : Nat) :
    ∀ (s j : Nat), firstIndexAux names i s j ≤ i := by
  intro s
  induction s with
  | zero => intro j; exact Nat.le_refl i
  | succ n ih =>
    intro j
    simp only [firstIndexAux]
    by_cases h : i ≤ j
    · rw [if_pos h]
    · rw [if_neg h]
      by_cases h2 : names.getD j "" = names.getD i ""
      · rw [if_pos h2]; omega
      · rw [if_neg h2]
        exact ih (j + 1)

theorem firstIndexAux_eq_first (names : List String) (i j : Nat)
    (hji : j ≤ i) (hmatch : names.getD j "" = names.getD i "") :
    ∀ (s t : Nat), t ≤ j → j < t + s →
      (∀ u, t ≤ u → u < j → names.getD u "" ≠ names.getD i "") →
      firstIndexAux names i s t = j := by
  intro s
  induction s with
  | zero => intro t ht hlt _; omega
  | succ n ih =>
    intro t ht hlt hmin
    by_cases htj : t = j
    · subst htj
      simp only [firstIndexAux]
      by_cases h : i ≤ t
      · rw [if_pos h]
        exact le_antisymm h hji
      · rw [if_neg h, if_pos hmatch]
    · have htj' : t < j := lt_of_le_of_ne ht htj
      simp only [firstIndexAux]
      have h1 : ¬ i ≤ t := by omega
      have h2 : names.getD t "" ≠ names.getD i "" := hmin t (Nat.le_refl t) htj'
      rw [if_neg h1, if_neg h2]
      exact ih (t + 1) (by omega) (by omega)
        (fun u hu1 hu2 => hmin u (by omega) hu2)

theorem firstIndices_length (names : List String) :
    (firstIndices names).length = names.length := by
  simp [firstIndices]

theorem firstIndices_getD (names : List String) (p : Nat)
    (hp : p < names.length) :
    (firstIndices names).getD p 0 = firstIndexAux names p (p + 1) 0 := by
  simp [firstIndices, List.getD_eq_getElem?_getD, List.getElem?_map,
    List.getElem?_range, hp]

theorem firstIndices_not_isEmpty (names : List String) (h : names ≠ []) :
    (firstIndices names).isEmpty = false := by
  cases he : firstIndices names with
  | nil =>
    exfalso
    have := firstIndices_length names
    rw [he] at this
    exact h (List.eq_nil_of_length_eq_zero this.symm)
  | cons a rest => rfl

theorem assembleLoop_length (names : List String) (fidx : List Nat)
    (m : List (String × Nat)) (sorted : List α) (dflt : α) :
    ∀ (k i : Nat) (outputs : List α), names.length - i ≤ k →
      (assembleLoop names fidx m sorted dflt k i outputs).length =
        outputs.length + (names.length - i) := by
  intro k
  induction k with
  | zero =>
    intro i outputs hk
    simp only [assembleLoop]
    omega
  | succ n ih =>
    intro i outputs hk
    simp only [assembleLoop]
    by_cases h : i < names.length
    · rw [if_pos h]
      rw [ih (i + 1) _ (by omega)]
      simp
      omega
    · rw [if_neg h]
      omega

theorem assembleLoop_getD_stable (names : List String) (fidx : List Nat)
    (m : List (String × Nat)) (sorted : List α) (dflt : α) :
    ∀ (k i : Nat) (outputs : List α) (p : Nat),
      p < outputs.length →
      (assembleLoop names fidx m sorted dflt k i outputs).getD p dflt =
        outputs.getD p dflt := by
  intro k
  induction k with
  | zero =>
    intro i outputs p hp
    simp only [assembleLoop]
  | succ n ih =>
    intro i outputs p hp
    simp only [assembleLoop]
    by_cases h : i < names.length
    · rw [if_pos h]
      rw [ih (i + 1) _ p (by simp; omega)]
      exact List.getD_append _ _ _ _ hp
    · rw [if_neg h]

theorem assembleLoop_getD_spec (names : List String) (fidx : List Nat)
    (m : List (String × Nat)) (sorted : List α) (dflt : α)
    (hf : ∀ q, q < names.length → fidx.getD q 0 ≤ q) :
    ∀ (k i : Nat) (outputs : List α) (p : Nat), names.length - i ≤ k →
      outputs.length = i → i ≤ p → p < names.length →
      (assembleLoop names fidx m sorted dflt k i outputs).getD p dflt =
        (if fidx.isEmpty ∨ fidx.getD p 0 = p then
          sorted.getD ((lookupNat m (names.getD p "")).getD 0) dflt
        else (assembleLoop names fidx m sorted dflt k i outputs).getD
          (fidx.getD p 0) dflt) := by
  intro k
  induction k with
  | zero => intro i outputs p hk hlen hip hp; omega
  | succ n ih =>
    intro i outputs p hk hlen hip hp
    have hlt : i < names.length := lt_of_le_of_lt hip hp
    by_cases hpi : i = p
    · subst hpi
      simp only [assembleLoop]
      rw [if_pos hlt]
      have hlen2 : (outputs ++ [assembleStep names fidx m sorted dflt i
          outputs]).length = i + 1 := by simp [hlen]
      have hres : (assembleLoop names fidx m sorted dflt n (i + 1)
          (outputs ++ [assembleStep names fidx m sorted dflt i
            outputs])).getD i dflt =
          (outputs ++ [assembleStep names fidx m sorted dflt i
            outputs]).getD i dflt :=
        assembleLoop_getD_stable names fidx m sorted dflt n (i + 1) _ i
          (by omega)
      rw [hres]
      have hstep : (outputs ++ [assembleStep names fidx m sorted dflt i
          outputs]).getD i dflt =
          assembleStep names fidx m sorted dflt i outputs := by
        have h0 : (outputs ++ [assembleStep names fidx m sorted dflt i
            outputs]).getD outputs.length dflt =
            assembleStep names fidx m sorted dflt i outputs := by
          simp [List.getD_eq_getElem?_getD, List.getElem?_concat_length]
        rw [hlen] at h0
        exact h0
      rw [hstep, assembleStep]
      by_cases hc : fidx.isEmpty ∨ fidx.getD i 0 = i
      · simp only [hc, if_pos]
      · simp only [hc, if_neg, not_false_iff]
        have hfi : fidx.getD i 0 < i := by
          rcases Nat.lt_or_ge (fidx.getD i 0) i with h | h
          · exact h
          · exfalso
            exact hc (Or.inr (le_antisymm (hf i hp) h))
        rw [assembleLoop_getD_stable names fidx m sorted dflt n (i + 1) _
          (fidx.getD i 0)
          (by simp only [List.length_append, List.length_cons,
                List.length_nil, hlen]
              omega)]
        rw [List.getD_append _ _ _ _ (by omega)]
    · have hip2 : i + 1 ≤ p := by omega
      simp only [assembleLoop]
      rw [if_pos hlt]
      exact ih (i + 1) _ p (by omega) (by simp [hlen]) hip2 hp

theorem mapInsertNat_length_le (m : List (String × Nat)) (k : String) (v : Nat) :
    (mapInsertNat m k v).length ≤ m.length + 1 := by
  induction m with
  | nil => simp [mapInsertNat]
  | cons e rest ih =>
    by_cases he : e.1 = k
    · simp [mapInsertNat, he]
    · simp only [mapInsertNat, he, if_false, List.length_cons]
      omega

theorem lookupNat_mapInsertNat_self (m : List (String × Nat)) (k : String)
    (v : Nat) : lookupNat (mapInsertNat m k v) k = some v := by
  induction m with
  | nil => simp [mapInsertNat, lookupNat]
  | cons e rest ih =>
    by_cases he : e.1 = k
    · simp [mapInsertNat, he, lookupNat]
    · simp only [mapInsertNat, he, if_false, lookupNat]
      exact ih

theorem lookupNat_mapInsertNat_other (m : List (String × Nat)) (k k' : String)
    (v : Nat) (h : k' ≠ k) :
    lookupNat (mapInsertNat m k v) k' = lookupNat m k' := by
  induction m with
  | nil =>
    simp only [mapInsertNat, lookupNat]
    rw [if_neg (fun hk : (k : String) = k' => h hk.symm)]
  | cons e rest ih =>
    by_cases he : e.1 = k
    · have hne : ¬((k : String) = k') := fun hk => h hk.symm
      have hne2 : ¬(e.1 = k') := fun hk => h (he.symm.trans hk).symm
      simp only [mapInsertNat, lookupNat]
      rw [if_pos he]
      simp only [lookupNat]
      rw [if_neg hne, if_neg hne2]
    · simp only [mapInsertNat, he, if_false, lookupNat]
      by_cases he2 : e.1 = k'
      · simp [he2]
      · simp only [he2, if_false]
        exact ih

theorem mapInsertNat_length_of_found (m : List (String × Nat)) (k : String)
    (v w : Nat) (h : lookupNat m k = some w) :
    (mapInsertNat m k v).length = m.length := by
  induction m with
  | nil => simp [lookupNat] at h
  | cons e rest ih =>
    by_cases he : e.1 = k
    · simp [mapInsertNat, he]
    · simp only [lookupNat, he, if_false] at h
      simp only [mapInsertNat, he, if_false, List.length_cons]
      rw [ih h]

theorem buildFrom_key_preserved (fetches : List String) :
    ∀ (i : Nat) (m : List (String × Nat)) (x : String) (w : Nat),
      lookupNat m x = some w →
      ∃ w', lookupNat (buildNameToIndexFrom fetches i m) x = some w' := by
  induction fetches with
  | nil => intro i m x w h; exact ⟨w, h⟩
  | cons f rest ih =>
    intro i m x w h
    simp only [buildNameToIndexFrom]
    by_cases hf : x = f
    · subst hf
      exact ih (i + 1) _ x i (lookupNat_mapInsertNat_self m x i)
    · exact ih (i + 1) _ x w (by rw [lookupNat_mapInsertNat_other m f x i hf]; exact h)

theorem buildFrom_length_le (fetches : List String) :
    ∀ (i : Nat) (m : List (String × Nat)),
      (buildNameToIndexFrom fetches i m).length ≤ m.length + fetches.length := by
  induction fetches with
  | nil => intro i m; simp [buildNameToIndexFrom]
  | cons f rest ih =>
    intro i m
    simp only [buildNameToIndexFrom, List.length_cons]
    calc (buildNameToIndexFrom rest (i + 1) (mapInsertNat m f i)).length
        ≤ (mapInsertNat m f i).length + rest.length := ih (i + 1) _
      _ ≤ (m.length + 1) + rest.length := by
          have := mapInsertNat_length_le m f i
          omega
      _ = m.length + (rest.length + 1) := by omega

theorem buildFrom_length_lt_of_mem (fetches : List String) :
    ∀ (i : Nat) (m : List (String × Nat)) (x : String) (w : Nat),
      x ∈ fetches → lookupNat m x = some w →
      (buildNameToIndexFrom fetches i m).length + 1 ≤ m.length + fetches.length := by
  induction fetches with
  | nil => intro i m x w hmem; cases hmem
  | cons f rest ih =>
    intro i m x w hmem h
    simp only [buildNameToIndexFrom, List.length_cons]
    by_cases hf : x = f
    · subst hf
      have he : (mapInsertNat m x i).length = m.length :=
        mapInsertNat_length_of_found m x i w h
      have := buildFrom_length_le rest (i + 1) (mapInsertNat m x i)
      omega
    · rcases List.mem_cons.mp hmem with rfl | hmem2
      · exact absurd rfl hf
      · have h2 : lookupNat (mapInsertNat m f i) x = some w := by
          rw [lookupNat_mapInsertNat_other m f x i hf]; exact h
        have := ih (i + 1) (mapInsertNat m f i) x w hmem2 h2
        have := mapInsertNat_length_le m f i
        omega

theorem buildFrom_length_lt_of_dup (fetches : List String) :
    ∀ (i : Nat) (m : List (String × Nat)), ¬ fetches.Nodup →
      (buildNameToIndexFrom fetches i m).length + 1 ≤ m.length + fetches.length := by
  induction fetches with
  | nil => intro i m hnd; exact absurd List.nodup_nil hnd
  | cons f rest ih =>
    intro i m hnd
    simp only [buildNameToIndexFrom, List.length_cons]
    by_cases hf : f ∈ rest
    · have := buildFrom_length_lt_of_mem rest (i + 1) (mapInsertNat m f i) f i
        hf (lookupNat_mapInsertNat_self m f i)
      have := mapInsertNat_length_le m f i
      omega
    · have hrest : ¬ rest.Nodup := by
        intro hr
        exact hnd (List.nodup_cons.mpr ⟨hf, hr⟩)
      have := ih (i + 1) (mapInsertNat m f i) hrest
      have := mapInsertNat_length_le m f i
      omega

theorem buildNameToIndex_length_lt (fetches : List String)
    (h : ¬ fetches.Nodup) :
    (buildNameToIndex fetches).length < fetches.length := by
  have h2 := buildFrom_length_lt_of_dup fetches 0 [] h
  simp only [List.length_nil] at h2
  simp only [buildNameToIndex]
  omega

theorem not_nodup_of_getD_eq (names : List String) (i j : Nat) (hj : j < i)
    (hi : i < names.length) (heq : names.getD j "" = names.getD i "") :
    ¬ names.Nodup := by
  intro hnd
  have hj' : j < names.length := lt_trans hj hi
  have hget : names.get ⟨j, hj'⟩ = names.get ⟨i, hi⟩ := by
    have e1 : names.getD j "" = names.get ⟨j, hj'⟩ := by
      rw [List.getD_eq_getElem?_getD, List.getElem?_eq_getElem hj']; rfl
    have e2 : names.getD i "" = names.get ⟨i, hi⟩ := by
      rw [List.getD_eq_getElem?_getD, List.getElem?_eq_getElem hi]; rfl
    rw [← e1, ← e2]; exact heq
  have := (hnd.get_inj_iff).mp hget
  have : j = i := congrArg Fin.val this
  omega

theorem sortStrings_length (l : List String) :
    (sortStrings l).length = l.length :=
  (List.perm_insertionSort strLeProp l).length_eq

theorem sortStrings_not_nodup (l : List String) (h : ¬ l.Nodup) :
    ¬ (sortStrings l).Nodup := fun hs =>
  h ((List.perm_insertionSort strLeProp l).nodup_iff.mp hs)

/-- C8: when `output_names` contains duplicates, the returned output vector
has the same length as `output_names`, and every position whose name already
occurred earlier holds a copy of the tensor at the first occurrence of that
name; in particular, on the identity graph after feeding `x:0 = 9`, the call
frame returns one retval per fetch entry (`[9, 9]` for the duplicated fetch)
and `Run({{x:0, 9}}, {y:0, y:0}, {})` yields `[9, 9]`. -/
theorem run_duplicate_fetches_copy_first_occurrence :
    (∀ (α : Type) (names : List String) (sorted : List α) (dflt : α),
      (runOutputs names sorted dflt).length = names.length) ∧
    (∀ (α : Type) (names : List String) (sorted : List α) (dflt : α)
        (i j : Nat), i < names.length → j < i →
        names.getD j "" = names.getD i "" →
        (∀ t, t < j → names.getD t "" ≠ names.getD i "") →
        (runOutputs names sorted dflt).getD i dflt =
          (runOutputs names sorted dflt).getD j dflt) ∧
    runOutputs ["y:0", "y:0"] [(9 : Nat), 9] 0 = [9, 9] := by
  refine ⟨?_, ?_, by decide⟩
  · intro α names sorted dflt
    simp only [runOutputs]
    rw [assembleLoop_length _ _ _ sorted dflt names.length 0 [] (by omega)]
    simp
  · intro α names sorted dflt i j hi hj heq hmin
    have hnd := not_nodup_of_getD_eq names i j hj hi heq
    have hnds := sortStrings_not_nodup names hnd
    have hlen := buildNameToIndex_length_lt (sortStrings names) hnds
    rw [sortStrings_length] at hlen
    have hne : ¬(names.length = (buildNameToIndex (sortStrings names)).length) := by
      omega
    simp only [runOutputs, hne, if_false]
    have hf : ∀ q, q < names.length → (firstIndices names).getD q 0 ≤ q := by
      intro q hq
      rw [firstIndices_getD names q hq]
      exact firstIndexAux_le names q (q + 1) 0
    have hnonempty : names ≠ [] := by
      intro h0
      rw [h0] at hi
      simp at hi
    have hie : (firstIndices names).isEmpty = false :=
      firstIndices_not_isEmpty names hnonempty
    have hfst : (firstIndices names).getD i 0 = j := by
      rw [firstIndices_getD names i hi]
      exact firstIndexAux_eq_first names i j (le_of_lt hj) heq (i + 1) 0
        (Nat.zero_le j) (by omega) (fun u _ hu2 => hmin u hu2)
    have hcond : ¬((firstIndices names).isEmpty = true ∨
        (firstIndices names).getD i 0 = i) := by
      rw [hie, hfst]
      simp
      omega
    rw [assembleLoop_getD_spec names (firstIndices names)
      (buildNameToIndex (sortStrings names)) sorted dflt hf names.length 0 []
      i (by omega) rfl (Nat.zero_le i) hi]
    rw [if_neg hcond, hfst]

/-! ## `DirectSession::CheckFetch` (claim C2)

`CheckFetch` (direct_session.cc:1509-1568) builds the set of still-pending
feed tensor ids (entries of `pending_inputs` not yet fed, minus the feeds of
this call), initializes a stack with the fetch nodes, and walks `in_edges`
backwards with a visited array; touching a pending feed tensor fails with
*invalid-argument*. -/

/-- Modelled from the spec: `ParseTensorName` (graph/tensor_id.cc, outside
the provided sources) splits a `name:digits` suffix into the operation name
and output slot, defaulting the slot to 0; the spec writes tensor names as
`a:0`, `s:0` throughout.  This scans trailing digits, as the library does. -/
def parseTensorName (s : String) : String × Nat :=
  let rev := s.toList.reverse
  let digits := rev.takeWhile (fun c => c.isDigit)
  match rev.drop digits.length with
  | ':' :: rest =>
    if digits.isEmpty then (s, 0)
    else (String.mk rest.reverse,
      (digits.reverse).foldl (fun n c => n * 10 + (c.toNat - '0'.toNat)) 0)
  | _ => (s, 0)

/-- A graph node: id (index into the visited array) and operation name. -/
structure PNode where
  nid : Nat
  name : String
  deriving DecidableEq, Repr

/-- A graph edge, as `CheckFetch` consumes it: the source node (whose name
and id the traversal reads), the source output slot, and the destination
node id. -/
structure PEdge where
  src : PNode
  srcOutput : Nat
  dst : Nat
  deriving DecidableEq, Repr

/-- The pruned client graph of an `ExecutorsAndKeys`: `num_node_ids()` and
the edge list. -/
structure PGraph where
  numNodeIds : Nat
  edges : List PEdge
  deriving DecidableEq, Repr

/-- `n->in_edges()`. -/
def inEdges (g : PGraph) (n : Nat) : List PEdge :=
  g.edges.filter (fun e => e.dst = n)

/-- The pending-feeds construction (direct_session.cc:1516-1530): every
`pending_inputs` entry not yet fed contributes its tensor id; a feed name
absent from `name_to_node` is *not-found*. -/
def buildPendingFeeds (pendingInputs : List (String × Bool))
    (nameToNode : List (String × Nat)) :
    Except Status (List (String × Nat)) :=
  match pendingInputs with
  | [] => Except.ok []
  | (input, done) :: rest =>
    if done then buildPendingFeeds rest nameToNode
    else
      match lookupNat nameToNode (parseTensorName input).1 with
      | none => Except.error (Status.notFoundErr ("Feed " ++ input ++ ": not found"))
      | some _ =>
        (buildPendingFeeds rest nameToNode).map
          (fun l => parseTensorName input :: l)

/-- The erasure loop (direct_session.cc:1531-1534): this call's feeds are
removed from the pending set. -/
def erasePending (pending : List (String × Nat)) (feeds : List String) :
    List (String × Nat) :=
  feeds.foldl (fun pf f => pf.filter (fun id => id ≠ parseTensorName f)) pending

/-- The stack initialization (direct_session.cc:1536-1545): one node per
fetch; a fetch name absent from `name_to_node` is *not-found*. -/
def initStack (fetches : List String) (nameToNode : List (String × Nat)) :
    Except Status (List Nat) :=
  match fetches with
  | [] => Except.ok []
  | f :: rest =>
    match lookupNat nameToNode (parseTensorName f).1 with
    | none => Except.error (Status.notFoundErr ("Fetch " ++ f ++ ": not found"))
    | some nid => (initStack rest nameToNode).map (fun l => nid :: l)

/-- The inner loop of direct_session.cc:1553-1565 over the in-edges of the
popped node: a pending source tensor is *invalid-argument*; an unvisited
source is marked and pushed. -/
def scanInEdges (pending : List (String × Nat)) :
    List PEdge → List Bool → List Nat →
    Except Status (List Bool × List Nat)
  | [], visited, stack => Except.ok (visited, stack)
  | e :: rest, visited, stack =>
    if pending.contains (e.src.name, e.srcOutput) then
      Except.error (Status.invalidArgumentErr
        ("Fetch " ++ e.src.name ++ ":" ++ toString e.srcOutput ++
          " can't be computed from the feeds that have been fed so far."))
    else if visited.getD e.src.nid false = false then
      scanInEdges pending rest (visited.set e.src.nid true) (e.src.nid :: stack)
    else scanInEdges pending rest visited stack

/-- The DFS loop of direct_session.cc:1548-1566.  The structural fuel
argument counts the remaining iterations: the call site passes enough fuel
that it never runs out (each iteration pops one node, and pushes are bounded
by the visited array). -/
def dfsCheck (g : PGraph) (pending : List (String × Nat)) :
    Nat → List Nat → List Bool → Except Status (List Bool)
  | 0, _, visited => Except.ok visited
  | Nat.succ f, stack, visited =>
    match stack with
    | [] => Except.ok visited
    | n :: rest =>
      match scanInEdges pending (inEdges g n) visited rest with
      | Except.error e => Except.error e
      | Except.ok (visited2, stack2) => dfsCheck g pending f stack2 visited2

/-- `DirectSession::CheckFetch` (direct_session.cc:1509-1568). -/
def checkFetch (g : PGraph) (nameToNode : List (String × Nat))
    (pendingInputs : List (String × Bool)) (feeds fetches : List String) :
    Status :=
  match buildPendingFeeds pendingInputs nameToNode with
  | Except.error st => st
  | Except.ok pf0 =>
    match initStack fetches nameToNode with
    | Except.error st => st
    | Except.ok stack0 =>
      match dfsCheck g (erasePending pf0 feeds)
          (stack0.length + g.numNodeIds + 1) stack0
          (List.replicate g.numNodeIds false) with
      | Except.error st => st
      | Except.ok _ => Status.OK

/-- One backward step: from node `a` to node `b` when an edge into `a` has
source `b`. -/
def backStep (g : PGraph) (a b : Nat) : Prop :=
  ∃ e ∈ g.edges, e.dst = a ∧ e.src.nid = b

/-- Node `n` is reached by the reverse-reachability traversal from the
fetch roots. -/
def reachesFetches (g : PGraph) (roots : List Nat) (n : Nat) : Prop :=
  ∃ r ∈ roots, Relation.ReflTransGen (backStep g) r n

/-- The number of `false` entries of the visited array. -/
def falseCount (v : List Bool) : Nat := (v.filter (fun b => b == false)).length

theorem getD_set_true_self (v : List Bool) (i : Nat) (h : i < v.length) :
    (v.set i true).getD i false = true := by
  simp [List.getD_eq_getElem?_getD, List.getElem?_set, h]

theorem getD_set_true_preserve (v : List Bool) (i d : Nat)
    (h : v.getD d false = true) : (v.set i true).getD d false = true := by
  by_cases hd : i = d
  · subst hd
    by_cases hlen : i < v.length
    · exact getD_set_true_self v i hlen
    · rw [List.set_eq_of_length_le (by omega)]
      exact h
  · rw [List.getD_eq_getElem?_getD, List.getElem?_set_ne hd,
      ← List.getD_eq_getElem?_getD]
    exact h

theorem getD_set_true_cases (v : List Bool) (i d : Nat)
    (h : (v.set i true).getD d false = true) :
    v.getD d false = true ∨ d = i := by
  by_cases hd : i = d
  · right; exact hd.symm
  · left
    rw [List.getD_eq_getElem?_getD, List.getElem?_set_ne hd,
      ← List.getD_eq_getElem?_getD] at h
    exact h

theorem falseCount_set_true (v : List Bool) (i : Nat) (hlen : i < v.length)
    (h : v.getD i false = false) :
    falseCount (v.set i true) + 1 = falseCount v := by
  induction v generalizing i with
  | nil => simp at hlen
  | cons b rest ih =>
    cases i with
    | zero =>
      simp only [List.getD_eq_getElem?_getD] at h
      simp only [List.getElem?_cons_zero, Option.getD_some] at h
      subst h
      simp [List.set, falseCount, List.filter]
    | succ n =>
      simp only [List.getD_eq_getElem?_getD, List.getElem?_cons_succ] at h
      have hlen2 : n < rest.length := by simpa using hlen
      have := ih n hlen2 (by rw [List.getD_eq_getElem?_getD]; exact h)
      simp only [List.set, falseCount, List.filter] at *
      cases hb : (b == false) <;> simp [hb] at * <;> omega

theorem falseCount_replicate (n : Nat) :
    falseCount (List.replicate n false) = n := by
  induction n with
  | zero => rfl
  | succ m ih =>
    simp only [List.replicate, falseCount, List.filter_cons] at *
    simp only [beq_self_eq_true, if_true, List.length_cons]
    omega

/-- S1: a scan error means some scanned edge's source tensor is pending, and
the error is *invalid-argument*. -/
theorem scanInEdges_error (pending : List (String × Nat)) :
    ∀ (es : List PEdge) (v : List Bool) (s : List Nat) (st : Status),
      scanInEdges pending es v s = Except.error st →
      st.code = ErrCode.invalidArgument ∧
      ∃ e ∈ es, pending.contains (e.src.name, e.srcOutput) = true := by
  intro es
  induction es with
  | nil => intro v s st h; simp [scanInEdges] at h
  | cons e rest ih =>
    intro v s st h
    simp only [scanInEdges] at h
    by_cases hp : pending.contains (e.src.name, e.srcOutput) = true
    · rw [if_pos hp] at h
      refine ⟨?_, e, List.mem_cons_self e rest, hp⟩
      cases h
      rfl
    · rw [if_neg hp] at h
      by_cases hv : v.getD e.src.nid false = false
      · rw [if_pos hv] at h
        obtain ⟨hc, e2, hmem, hp2⟩ := ih _ _ _ h
        exact ⟨hc, e2, List.mem_cons_of_mem e hmem, hp2⟩
      · rw [if_neg hv] at h
        obtain ⟨hc, e2, hmem, hp2⟩ := ih _ _ _ h
        exact ⟨hc, e2, List.mem_cons_of_mem e hmem, hp2⟩

/-- S3: a successful scan only grows the visited set. -/
theorem scanInEdges_visited_mono (pending : List (String × Nat)) :
    ∀ (es : List PEdge) (v : List Bool) (s : List Nat) (v2 : List Bool)
      (s2 : List Nat),
      scanInEdges pending es v s = Except.ok (v2, s2) →
      ∀ d, v.getD d false = true → v2.getD d false = true := by
  intro es
  induction es with
  | nil =>
    intro v s v2 s2 h d hd
    simp only [scanInEdges] at h
    cases h
    exact hd
  | cons e rest ih =>
    intro v s v2 s2 h d hd
    simp only [scanInEdges] at h
    by_cases hp : pending.contains (e.src.name, e.srcOutput) = true
    · rw [if_pos hp] at h; cases h
    · rw [if_neg hp] at h
      by_cases hv : v.getD e.src.nid false = false
      · rw [if_pos hv] at h
        exact ih _ _ _ _ h d (getD_set_true_preserve v e.src.nid d hd)
      · rw [if_neg hv] at h
        exact ih _ _ _ _ h d hd

/-- S5: a successful scan only grows the stack. -/
theorem scanInEdges_stack_mono (pending : List (String × Nat)) :
    ∀ (es : List PEdge) (v : List Bool) (s : List Nat) (v2 : List Bool)
      (s2 : List Nat),
      scanInEdges pending es v s = Except.ok (v2, s2) →
      ∀ x ∈ s, x ∈ s2 := by
  intro es
  induction es with
  | nil =>
    intro v s v2 s2 h x hx
    simp only [scanInEdges] at h
    cases h
    exact hx
  | cons e rest ih =>
    intro v s v2 s2 h x hx
    simp only [scanInEdges] at h
    by_cases hp : pending.contains (e.src.name, e.srcOutput) = true
    · rw [if_pos hp] at h; cases h
    · rw [if_neg hp] at h
      by_cases hv : v.getD e.src.nid false = false
      · rw [if_pos hv] at h
        exact ih _ _ _ _ h x (List.mem_cons_of_mem _ hx)
      · rw [if_neg hv] at h
        exact ih _ _ _ _ h x hx

/-- S2: after a successful scan every scanned edge is non-pending and its
source is visited. -/
theorem scanInEdges_ok_checked (pending : List (String × Nat)) :
    ∀ (es : List PEdge) (v : List Bool) (s : List Nat) (v2 : List Bool)
      (s2 : List Nat),
      scanInEdges pending es v s = Except.ok (v2, s2) →
      (∀ e ∈ es, e.src.nid < v.length) →
      ∀ e ∈ es, pending.contains (e.src.name, e.srcOutput) = false ∧
        v2.getD e.src.nid false = true := by
  intro es
  induction es with
  | nil => intro v s v2 s2 h hwf e he; cases he
  | cons e0 rest ih =>
    intro v s v2 s2 h hwf e he
    simp only [scanInEdges] at h
    by_cases hp : pending.contains (e0.src.name, e0.srcOutput) = true
    · rw [if_pos hp] at h; cases h
    · rw [if_neg hp] at h
      rcases List.mem_cons.mp he with rfl | hmem
      · refine ⟨Bool.not_eq_true _ ▸ hp, ?_⟩
        by_cases hv : v.getD e.src.nid false = false
        · rw [if_pos hv] at h
          exact scanInEdges_visited_mono pending rest _ _ _ _ h e.src.nid
            (getD_set_true_self v e.src.nid
              (hwf e (List.mem_cons_self e rest)))
        · rw [if_neg hv] at h
          exact scanInEdges_visited_mono pending rest _ _ _ _ h e.src.nid
            (by revert hv; cases hvv : v.getD e.src.nid false <;> simp)
      · by_cases hv : v.getD e0.src.nid false = false
        · rw [if_pos hv] at h
          exact ih _ _ _ _ h
            (fun e2 he2 => by
              rw [List.length_set]
              exact hwf e2 (List.mem_cons_of_mem e0 he2))
            e hmem
        · rw [if_neg hv] at h
          exact ih _ _ _ _ h (fun e2 he2 => hwf e2 (List.mem_cons_of_mem e0 he2))
            e hmem

/-- S4: a node visited after a successful scan was already visited or is on
the resulting stack. -/
theorem scanInEdges_new_on_stack (pending : List (String × Nat)) :
    ∀ (es : List PEdge) (v : List Bool) (s : List Nat) (v2 : List Bool)
      (s2 : List Nat),
      scanInEdges pending es v s = Except.ok (v2, s2) →
      ∀ d, v2.getD d false = true → v.getD d false = true ∨ d ∈ s2 := by
  intro es
  induction es with
  | nil =>
    intro v s v2 s2 h d hd
    simp only [scanInEdges] at h
    cases h
    exact Or.inl hd
  | cons e rest ih =>
    intro v s v2 s2 h d hd
    simp only [scanInEdges] at h
    by_cases hp : pending.contains (e.src.name, e.srcOutput) = true
    · rw [if_pos hp] at h; cases h
    · rw [if_neg hp] at h
      by_cases hv : v.getD e.src.nid false = false
      · rw [if_pos hv] at h
        rcases ih _ _ _ _ h d hd with hold | hstk
        · rcases getD_set_true_cases v e.src.nid d hold with hin | heq
          · exact Or.inl hin
          · subst heq
            exact Or.inr (scanInEdges_stack_mono pending rest _ _ _ _ h _
              (List.mem_cons_self _ _))
        · exact Or.inr hstk
      · rw [if_neg hv] at h
        exact ih _ _ _ _ h d hd

/-- S8: every node on the stack after a successful scan was already on the
stack or is the source of a scanned edge. -/
theorem scanInEdges_stack_from (pending : List (String × Nat)) :
    ∀ (es : List PEdge) (v : List Bool) (s : List Nat) (v2 : List Bool)
      (s2 : List Nat),
      scanInEdges pending es v s = Except.ok (v2, s2) →
      ∀ x ∈ s2, x ∈ s ∨ ∃ e ∈ es, e.src.nid = x := by
  intro es
  induction es with
  | nil =>
    intro v s v2 s2 h x hx
    simp only [scanInEdges] at h
    cases h
    exact Or.inl hx
  | cons e rest ih =>
    intro v s v2 s2 h x hx
    simp only [scanInEdges] at h
    by_cases hp : pending.contains (e.src.name, e.srcOutput) = true
    · rw [if_pos hp] at h; cases h
    · rw [if_neg hp] at h
      by_cases hv : v.getD e.src.nid false = false
      · rw [if_pos hv] at h
        rcases ih _ _ _ _ h x hx with hs | ⟨e2, he2, hx2⟩
        · rcases List.mem_cons.mp hs with rfl | hs2
          · exact Or.inr ⟨e, List.mem_cons_self e rest, rfl⟩
          · exact Or.inl hs2
        · exact Or.inr ⟨e2, List.mem_cons_of_mem e he2, hx2⟩
      · rw [if_neg hv] at h
        rcases ih _ _ _ _ h x hx with hs | ⟨e2, he2, hx2⟩
        · exact Or.inl hs
        · exact Or.inr ⟨e2, List.mem_cons_of_mem e he2, hx2⟩

/-- S6: a successful scan preserves the measure `stack length + unvisited
count` and the visited-array length. -/
theorem scanInEdges_measure (pending : List (String × Nat)) :
    ∀ (es : List PEdge) (v : List Bool) (s : List Nat) (v2 : List Bool)
      (s2 : List Nat),
      scanInEdges pending es v s = Except.ok (v2, s2) →
      (∀ e ∈ es, e.src.nid < v.length) →
      s2.length + falseCount v2 = s.length + falseCount v ∧
        v2.length = v.length := by
  intro es
  induction es with
  | nil =>
    intro v s v2 s2 h hwf
    simp only [scanInEdges] at h
    cases h
    exact ⟨rfl, rfl⟩
  | cons e rest ih =>
    intro v s v2 s2 h hwf
    simp only [scanInEdges] at h
    by_cases hp : pending.contains (e.src.name, e.srcOutput) = true
    · rw [if_pos hp] at h; cases h
    · rw [if_neg hp] at h
      by_cases hv : v.getD e.src.nid false = false
      · rw [if_pos hv] at h
        have hlt : e.src.nid < v.length := hwf e (List.mem_cons_self e rest)
        obtain ⟨h1, h2⟩ := ih _ _ _ _ h
          (fun e2 he2 => by
            rw [List.length_set]
            exact hwf e2 (List.mem_cons_of_mem e he2))
        have hfc := falseCount_set_true v e.src.nid hlt hv
        constructor
        · rw [h1]
          simp only [List.length_cons]
          omega
        · rw [h2, List.length_set]
      · rw [if_neg hv] at h
        exact ih _ _ _ _ h (fun e2 he2 => hwf e2 (List.mem_cons_of_mem e he2))

/-- Every in-edge of `d` has been checked: non-pending source tensor and
visited source node. -/
def allChecked (g : PGraph) (pending : List (String × Nat)) (d : Nat)
    (v : List Bool) : Prop :=
  ∀ e ∈ g.edges, e.dst = d →
    pending.contains (e.src.name, e.srcOutput) = false ∧
    v.getD e.src.nid false = true

theorem getD_replicate_false (n d : Nat) :
    (List.replicate n false).getD d false = false := by
  rw [List.getD_eq_getElem?_getD, List.getElem?_replicate]
  by_cases h : d < n <;> simp [h]

/-- D1 (soundness): a DFS error is *invalid-argument* and exhibits an edge
into a traversal-reachable node whose source tensor is a pending feed. -/
theorem dfsCheck_error_sound (g : PGraph) (pending : List (String × Nat))
    (roots : List Nat) :
    ∀ (fuel : Nat) (stack : List Nat) (v : List Bool) (st : Status),
      (∀ n ∈ stack, reachesFetches g roots n) →
      dfsCheck g pending fuel stack v = Except.error st →
      st.code = ErrCode.invalidArgument ∧
      ∃ e ∈ g.edges, reachesFetches g roots e.dst ∧
        (e.src.name, e.srcOutput) ∈ pending := by
  intro fuel
  induction fuel with
  | zero => intro stack v st hstack h; simp [dfsCheck] at h
  | succ f ih =>
    intro stack v st hstack h
    cases stack with
    | nil => simp [dfsCheck] at h
    | cons n rest =>
      simp only [dfsCheck] at h
      cases hscan : scanInEdges pending (inEdges g n) v rest with
      | error e =>
        rw [hscan] at h
        cases h
        obtain ⟨hc, e2, hmem, hp⟩ := scanInEdges_error pending _ _ _ _ hscan
        obtain ⟨he2, hdst⟩ := List.mem_filter.mp hmem
        have hdn : e2.dst = n := by simpa using hdst
        refine ⟨hc, e2, he2, ?_, List.elem_iff.mp hp⟩
        rw [hdn]
        exact hstack n (List.mem_cons_self n rest)
      | ok pair =>
        obtain ⟨v2, s2⟩ := pair
        rw [hscan] at h
        apply ih s2 v2 st ?_ h
        intro x hx
        rcases scanInEdges_stack_from pending _ _ _ _ _ hscan x hx with
          hs | ⟨e2, he2, hx2⟩
        · exact hstack x (List.mem_cons_of_mem n hs)
        · obtain ⟨he2g, hdst⟩ := List.mem_filter.mp he2
          obtain ⟨r, hr, hpath⟩ := hstack n (List.mem_cons_self n rest)
          exact ⟨r, hr, hpath.tail ⟨e2, he2g, by simpa using hdst, hx2⟩⟩

/-- D2 (completeness): a DFS that finishes cleanly has checked every in-edge
of every visited node and every root. -/
theorem dfsCheck_ok_complete (g : PGraph) (pending : List (String × Nat))
    (roots : List Nat)
    (hwf : ∀ e ∈ g.edges, e.src.nid < g.numNodeIds) :
    ∀ (fuel : Nat) (stack : List Nat) (v : List Bool) (vf : List Bool),
      stack.length + falseCount v < fuel →
      v.length = g.numNodeIds →
      (∀ d, (v.getD d false = true ∨ d ∈ roots) →
        d ∈ stack ∨ allChecked g pending d v) →
      dfsCheck g pending fuel stack v = Except.ok vf →
      ∀ d, (vf.getD d false = true ∨ d ∈ roots) →
        allChecked g pending d vf := by
  intro fuel
  induction fuel with
  | zero => intro stack v vf hb; omega
  | succ f ih =>
    intro stack v vf hb hlen hJ h
    cases stack with
    | nil =>
      simp only [dfsCheck] at h
      cases h
      intro d hd
      rcases hJ d hd with hin | hchecked
      · cases hin
      · exact hchecked
    | cons n rest =>
      simp only [dfsCheck] at h
      cases hscan : scanInEdges pending (inEdges g n) v rest with
      | error e => rw [hscan] at h; cases h
      | ok pair =>
        obtain ⟨v2, s2⟩ := pair
        rw [hscan] at h
        have hwfes : ∀ e ∈ inEdges g n, e.src.nid < v.length := by
          intro e he
          rw [hlen]
          exact hwf e (List.mem_filter.mp he).1
        obtain ⟨hmeas, hlen2⟩ := scanInEdges_measure pending _ _ _ _ _ hscan hwfes
        apply ih s2 v2 vf ?_ ?_ ?_ h
        · simp only [List.length_cons] at hb
          omega
        · rw [hlen2]; exact hlen
        · intro d hd
          have hsplit : d = n ∨ (d ∈ rest ∨ allChecked g pending d v) ∨
              d ∈ s2 := by
            rcases hd with hv2 | hroot
            · rcases scanInEdges_new_on_stack pending _ _ _ _ _ hscan d hv2 with
                hold | hs2
              · rcases hJ d (Or.inl hold) with hin | hchecked
                · rcases List.mem_cons.mp hin with rfl | hrest
                  · exact Or.inl rfl
                  · exact Or.inr (Or.inl (Or.inl hrest))
                · exact Or.inr (Or.inl (Or.inr hchecked))
              · cases hvold : v.getD d false with
                | true =>
                  rcases hJ d (Or.inl hvold) with hin | hchecked
                  · rcases List.mem_cons.mp hin with rfl | hrest
                    · exact Or.inl rfl
                    · exact Or.inr (Or.inl (Or.inl hrest))
                  · exact Or.inr (Or.inl (Or.inr hchecked))
                | false => exact Or.inr (Or.inr hs2)
            · rcases hJ d (Or.inr hroot) with hin | hchecked
              · rcases List.mem_cons.mp hin with rfl | hrest
                · exact Or.inl rfl
                · exact Or.inr (Or.inl (Or.inl hrest))
              · exact Or.inr (Or.inl (Or.inr hchecked))
          rcases hsplit with rfl | ⟨hrest⟩ | hs2
          · right
            intro e he hdst
            have hin : e ∈ inEdges g d :=
              List.mem_filter.mpr ⟨he, by simpa using hdst⟩
            exact scanInEdges_ok_checked pending _ _ _ _ _ hscan hwfes e hin
          · rcases hrest with hmem | hchecked
            · left
              exact scanInEdges_stack_mono pending _ _ _ _ _ hscan d hmem
            · right
              intro e he hdst
              obtain ⟨h1, h2⟩ := hchecked e he hdst
              exact ⟨h1, scanInEdges_visited_mono pending _ _ _ _ _ hscan _ h2⟩
          · left; exact hs2

/-- Every traversal-reachable node ends up fully checked when the DFS
finishes cleanly. -/
theorem reach_allChecked (g : PGraph) (pending : List (String × Nat))
    (roots : List Nat) (vf : List Bool)
    (hfinal : ∀ d, (vf.getD d false = true ∨ d ∈ roots) →
      allChecked g pending d vf) :
    ∀ d, reachesFetches g roots d → allChecked g pending d vf := by
  have haux : ∀ r d, r ∈ roots → Relation.ReflTransGen (backStep g) r d →
      (vf.getD d false = true ∨ d ∈ roots) := by
    intro r d hr hpath
    induction hpath with
    | refl => exact Or.inr hr
    | tail hab hbc ihab =>
      obtain ⟨e, he, hdst, hsrc⟩ := hbc
      have := hfinal _ ihab e he hdst
      rw [← hsrc]
      exact Or.inl this.2
  rintro d ⟨r, hr, hpath⟩
  exact hfinal d (haux r d hr hpath)

/-- C2: given that no feed or fetch name is missing from `name_to_node`
(so that the not-found paths do not fire), `CheckFetch` fails with
*invalid-argument* exactly when the reverse-reachability traversal from the
fetch nodes through `in_edges` reaches a still-pending feed tensor — one
listed in `pending_inputs` as not yet fed and not supplied by this call;
equivalently, `CheckFetch` passes iff the feeds supplied so far together
with this call's feeds cover every feed the fetches depend on. -/
theorem checkFetch_invalid_iff_pending_reachable
    (g : PGraph) (nameToNode : List (String × Nat))
    (pendingInputs : List (String × Bool)) (feeds fetches : List String)
    (pf0 : List (String × Nat)) (stack0 : List Nat)
    (hwf : ∀ e ∈ g.edges, e.src.nid < g.numNodeIds)
    (hpf : buildPendingFeeds pendingInputs nameToNode = Except.ok pf0)
    (hst : initStack fetches nameToNode = Except.ok stack0) :
    ((checkFetch g nameToNode pendingInputs feeds fetches).code =
        ErrCode.invalidArgument ↔
      ∃ e ∈ g.edges, reachesFetches g stack0 e.dst ∧
        (e.src.name, e.srcOutput) ∈ erasePending pf0 feeds) ∧
    (checkFetch g nameToNode pendingInputs feeds fetches = Status.OK ↔
      ¬ ∃ e ∈ g.edges, reachesFetches g stack0 e.dst ∧
        (e.src.name, e.srcOutput) ∈ erasePending pf0 feeds) := by
  have hcf : checkFetch g nameToNode pendingInputs feeds fetches =
      match dfsCheck g (erasePending pf0 feeds)
          (stack0.length + g.numNodeIds + 1) stack0
          (List.replicate g.numNodeIds false) with
      | Except.error st => st
      | Except.ok _ => Status.OK := by
    simp only [checkFetch, hpf, hst]
  cases hdfs : dfsCheck g (erasePending pf0 feeds)
      (stack0.length + g.numNodeIds + 1) stack0
      (List.replicate g.numNodeIds false) with
  | error st =>
    obtain ⟨hcode, hblocked⟩ := dfsCheck_error_sound g
      (erasePending pf0 feeds) stack0 _ _ _ st
      (fun n hn => ⟨n, hn, Relation.ReflTransGen.refl⟩) hdfs
    rw [hcf, hdfs]
    refine ⟨⟨fun _ => hblocked, fun _ => hcode⟩,
      ⟨fun hok => ?_, fun hnb => absurd hblocked hnb⟩⟩
    exfalso
    have hst2 : st = Status.OK := hok
    rw [hst2] at hcode
    simp [Status.OK] at hcode
  | ok vf =>
    have hfinal := dfsCheck_ok_complete g (erasePending pf0 feeds) stack0 hwf
      (stack0.length + g.numNodeIds + 1) stack0
      (List.replicate g.numNodeIds false) vf
      (by rw [falseCount_replicate]; omega)
      (by simp)
      (fun d hd => by
        rcases hd with hv | hroot
        · rw [getD_replicate_false] at hv
          cases hv
        · exact Or.inl hroot)
      hdfs
    have hnb : ¬ ∃ e ∈ g.edges, reachesFetches g stack0 e.dst ∧
        (e.src.name, e.srcOutput) ∈ erasePending pf0 feeds := by
      rintro ⟨e, he, hreach, hmem⟩
      have hchecked := reach_allChecked g (erasePending pf0 feeds) stack0 vf
        hfinal e.dst hreach
      obtain ⟨h1, _⟩ := hchecked e he rfl
      have h2 : (erasePending pf0 feeds).contains
          (e.src.name, e.srcOutput) = true := List.elem_iff.mpr hmem
      rw [h2] at h1
      simp at h1
    rw [hcf, hdfs]
    exact ⟨⟨fun hcode => by simp [Status.OK] at hcode,
      fun hb => absurd hb hnb⟩, ⟨fun _ => hnb, fun _ => rfl⟩⟩

/-- Witness for `checkFetch_invalid_iff_pending_reachable`: the spec's
scenario-4 graph `a + b = s` with `a:0` already fed, `b:0` still pending,
no feeds in this call and fetch `s:0`. -/
theorem checkFetch_invalid_iff_pending_reachable_witness :
    ((checkFetch ⟨3, [⟨⟨0, "a"⟩, 0, 2⟩, ⟨⟨1, "b"⟩, 0, 2⟩]⟩
        [("a", 0), ("b", 1), ("s", 2)]
        [("a:0", true), ("b:0", false)] [] ["s:0"]).code =
        ErrCode.invalidArgument ↔
      ∃ e ∈ (⟨3, [⟨⟨0, "a"⟩, 0, 2⟩, ⟨⟨1, "b"⟩, 0, 2⟩]⟩ : PGraph).edges,
        reachesFetches ⟨3, [⟨⟨0, "a"⟩, 0, 2⟩, ⟨⟨1, "b"⟩, 0, 2⟩]⟩ [2] e.dst ∧
        (e.src.name, e.srcOutput) ∈ erasePending [("b", 0)] []) ∧
    (checkFetch ⟨3, [⟨⟨0, "a"⟩, 0, 2⟩, ⟨⟨1, "b"⟩, 0, 2⟩]⟩
        [("a", 0), ("b", 1), ("s", 2)]
        [("a:0", true), ("b:0", false)] [] ["s:0"] = Status.OK ↔
      ¬ ∃ e ∈ (⟨3, [⟨⟨0, "a"⟩, 0, 2⟩, ⟨⟨1, "b"⟩, 0, 2⟩]⟩ : PGraph).edges,
        reachesFetches ⟨3, [⟨⟨0, "a"⟩, 0, 2⟩, ⟨⟨1, "b"⟩, 0, 2⟩]⟩ [2] e.dst ∧
        (e.src.name, e.srcOutput) ∈ erasePending [("b", 0)] []) :=
  checkFetch_invalid_iff_pending_reachable
    ⟨3, [⟨⟨0, "a"⟩, 0, 2⟩, ⟨⟨1, "b"⟩, 0, 2⟩]⟩
    [("a", 0), ("b", 1), ("s", 2)]
    [("a:0", true), ("b:0", false)] [] ["s:0"]
    [("b", 0)] [2] (by decide) (by rfl) (by rfl)

end DeepRec
